import Mathlib

/-!
# cryptonl: decoding Linux kernel crypto API netlink responses

A shallow embedding of package `cryptonl` (`str_int8.go`, `str_uint8.go`,
`algorithm.go`, `algorithm_linux.go`, `conn.go`) and of the test encoder of
`conn_linux_test.go`, followed by theorems about the string codec, the
algorithm record decoder `parseAlgorithm` and the enumeration client
`Conn.Algorithms`.

Conventions.

* A Go `byte`/`uint8` is a `Fin 256`; a Go `string` and a Go `[]byte` are lists
  of bytes; a Go `[64]int8` is a list of `Int8` of length 64.
* `uint16` and `uint32` values are natural numbers; every encoder reduces them
  modulo `2 ^ 16` resp. `2 ^ 32`.
* What depends on the build target (native byte order, width of `int`) is read
  from a `Target`.
* A Go function returning `(value, error)` returns a `Result`, whose third
  outcome `fault` stands for a run-time fault (index out of range, a read
  outside the slice).
-/

namespace Cryptonl

/-! ## Machine types -/

/-- A Go `byte` (`uint8`). -/
abbrev Byte := Fin 256

/-- A Go `string`, as its sequence of bytes. -/
abbrev GoString := List Byte

/-- A Go `int8`. -/
def Int8 : Type := { x : Int // -128 ≤ x ∧ x ≤ 127 }

instance : DecidableEq Int8 := by
  unfold Int8
  infer_instance

/-- The `uint8` with the bit pattern of an `int8`: what reading an `int8`
through a `*uint8` gives (`*(*[]uint8)(unsafe.Pointer(&s))`). -/
def Int8.toUint8 (x : Int8) : Byte := Fin.ofNat (x.val % 256).toNat

/-- The `int8` with the bit pattern of a `uint8`: what reading a `uint8`
through a `*int8` gives (`*(*[64]int8)(unsafe.Pointer(&out))`). -/
def Int8.ofUint8 (u : Byte) : Int8 :=
  ⟨if u.val < 128 then (u.val : Int) else (u.val : Int) - 256, by
    have := u.isLt
    split <;> omega⟩

/-- Byte order of multi-byte integers. -/
inductive ByteOrder where
  | LittleEndian
  | BigEndian
  deriving DecidableEq, Repr

/-- What the build target fixes: the native byte order (`nlenc.NativeEndian`,
also the order of the integer fields of a structure in memory) and whether the
Go type `int` is 64 bits wide (it is 32 bits wide on linux/386 or linux/mips). -/
structure Target where
  NativeEndian : ByteOrder
  int64 : Bool
  deriving DecidableEq, Repr

/-- The conversion `int(v)` of a `uint32` value `v`: the value itself when
`int` has 64 bits, the two's complement reading of the 32 bits otherwise. -/
def Target.int (t : Target) (v : Nat) : Int :=
  if t.int64 then (v : Int)
  else if v % 4294967296 < 2147483648 then ((v % 4294967296 : Nat) : Int)
  else ((v % 4294967296 : Nat) : Int) - 4294967296

/-- The `uint16` held by the first two bytes of `b` (`binary.ByteOrder.Uint16`).
Callers hand over at least two bytes. -/
def ByteOrder.Uint16 : ByteOrder → List Byte → Nat
  | .LittleEndian, b0 :: b1 :: _ => b0.val + 256 * b1.val
  | .BigEndian, b0 :: b1 :: _ => 256 * b0.val + b1.val
  | _, _ => 0

/-- The two bytes of a `uint16` (`binary.ByteOrder.PutUint16`). -/
def ByteOrder.PutUint16 : ByteOrder → Nat → List Byte
  | .LittleEndian, v => [Fin.ofNat (v % 256), Fin.ofNat (v / 256 % 256)]
  | .BigEndian, v => [Fin.ofNat (v / 256 % 256), Fin.ofNat (v % 256)]

/-- The `uint32` held by the first four bytes of `b` (`binary.ByteOrder.Uint32`).
Callers hand over at least four bytes. -/
def ByteOrder.Uint32 : ByteOrder → List Byte → Nat
  | .LittleEndian, b0 :: b1 :: b2 :: b3 :: _ =>
      b0.val + 256 * b1.val + 65536 * b2.val + 16777216 * b3.val
  | .BigEndian, b0 :: b1 :: b2 :: b3 :: _ =>
      16777216 * b0.val + 65536 * b1.val + 256 * b2.val + b3.val
  | _, _ => 0

/-- The four bytes of a `uint32` (`binary.ByteOrder.PutUint32`). -/
def ByteOrder.PutUint32 : ByteOrder → Nat → List Byte
  | .LittleEndian, v =>
      [Fin.ofNat (v % 256), Fin.ofNat (v / 256 % 256),
       Fin.ofNat (v / 65536 % 256), Fin.ofNat (v / 16777216 % 256)]
  | .BigEndian, v =>
      [Fin.ofNat (v / 16777216 % 256), Fin.ofNat (v / 65536 % 256),
       Fin.ofNat (v / 256 % 256), Fin.ofNat (v % 256)]

/-- The Go builtin `copy(dst, src)`: the contents of `dst` afterwards, its first
`min (len dst) (len src)` elements replaced by those of `src`. -/
def copy {α : Type} (dst src : List α) : List α :=
  src.take dst.length ++ dst.drop src.length

/-! ## String codec (`str_int8.go`, `str_uint8.go`) -/

/-- Modelled from the spec: `nlenc.String` of `github.com/mdlayher/netlink/nlenc`
is not among the sources. Section 4.2 has the string codec copy the bytes of
the array up to, but not including, the first zero byte, or the whole array
when it holds no zero byte. -/
def nlencString : List Byte → GoString
  | [] => []
  | c :: cs => if c = 0 then [] else c :: nlencString cs

namespace Int8Arch

/-- The function `str` of `str_int8.go`: the `[]int8` is read as a `[]uint8` and
handed to `nlenc.String`. -/
def str (s : List Int8) : GoString :=
  nlencString (s.map Int8.toUint8)

/-- The function `pack` of `str_int8.go`: `s` is copied into a zeroed
`[64]byte`, which is then read as a `[64]int8`. -/
def pack (s : GoString) : List Int8 :=
  let out : List Byte := List.replicate 64 0
  let out := copy out s
  out.map Int8.ofUint8

end Int8Arch

namespace Uint8Arch

/-- The function `str` of `str_uint8.go`. -/
def str (s : List Byte) : GoString :=
  nlencString s

/-- The function `pack` of `str_uint8.go`. Its body is the conversion
`[]uint8(s)` alone: the bytes of `s`, as many as `s` has, with no copy into a
64-element array (the declared result type `[64]uint8` is not what the body
produces). -/
def pack (s : GoString) : List Byte :=
  s

end Uint8Arch

/-! ## Results and errors -/

/-- The errors of the package and of the attribute decoder. The first three are
the `fmt.Errorf` values of `algorithm_linux.go` with their `want` and `got`
numbers (the spec's `MalformedHeader` and `MalformedReport`); `invalidAttribute`
is the walker's `TruncatedAttribute`; `notUint32` is the error of an integer
accessor on a payload of the wrong length; `transport` is an error of the
transport, passed through unchanged. -/
inductive Error where
  | cryptoUserAlg (want got : Nat)
  | cryptoReportCipher (want got : Nat)
  | cryptoReportHash (want got : Nat)
  | invalidAttribute
  | notUint32 (typ len : Nat)
  | transport (code : Nat)
  deriving DecidableEq

/-- Outcome of a Go function returning `(value, error)`: a value with a nil
error, a non-nil error with no value, or a run-time fault. -/
inductive Result (α : Type) where
  | ok (v : α)
  | error (e : Error)
  | fault
  deriving DecidableEq

/-- The slice expression `b[lo:]`; `none` when `lo` is out of range. -/
def sliceFrom (b : List Byte) (lo : Nat) : Option (List Byte) :=
  if lo ≤ b.length then some (b.drop lo) else none

/-- The slice expression `b[:hi]`; `none` when `hi` is out of range. -/
def sliceTo (b : List Byte) (hi : Nat) : Option (List Byte) :=
  if hi ≤ b.length then some (b.take hi) else none

/-! ## Records (`algorithm.go`) -/

/-- A `Cipher`; `typer` is the embedded string. -/
structure Cipher where
  BlockSize : Int
  MinKeySize : Int
  MaxKeySize : Int
  typer : GoString
  deriving DecidableEq

/-- A `Hash`; `typer` is the embedded string. -/
structure Hash where
  BlockSize : Int
  DigestSize : Int
  typer : GoString
  deriving DecidableEq

/-- A non-nil value of the interface `Type`: a `*Cipher` or a `*Hash`. -/
inductive AlgorithmType where
  | Cipher (c : Cipher)
  | Hash (h : Hash)
  deriving DecidableEq

/-- The method `Type()` of the interface `Type`. -/
def AlgorithmType.Type_ : AlgorithmType → GoString
  | .Cipher c => c.typer
  | .Hash h => h.typer

/-- An `Algorithm`; a nil `Type` is `none`. -/
structure Algorithm where
  Name : GoString
  Driver : GoString
  Module : GoString
  Priority : Int
  Type_ : Option AlgorithmType
  deriving DecidableEq

/-! ## Kernel structures and attribute types (`golang.org/x/sys/unix`) -/

/-- Modelled from the spec: `unix.CryptoUserAlg` is not among the sources. The
header layout of section 6 has three fixed-size character fields (name, driver
name, module name) in kernel ABI order; the kernel's `struct crypto_user_alg`
follows them with four 32-bit words. -/
structure CryptoUserAlg where
  Name : List Int8
  Driver_name : List Int8
  Module_name : List Int8
  Type_ : Nat
  Mask : Nat
  Refcnt : Nat
  Flags : Nat
  deriving DecidableEq

/-- Modelled from the spec: `unix.CryptoReportCipher` is not among the sources.
Section 6: a type label and three unsigned 32-bit fields. -/
structure CryptoReportCipher where
  Type_ : List Int8
  Blocksize : Nat
  Min_keysize : Nat
  Max_keysize : Nat
  deriving DecidableEq

/-- Modelled from the spec: `unix.CryptoReportHash` is not among the sources.
Section 6: a type label and two unsigned 32-bit fields. -/
structure CryptoReportHash where
  Type_ : List Int8
  Blocksize : Nat
  Digestsize : Nat
  deriving DecidableEq

/-- The constant `sizeofCryptoUserAlg`: `unsafe.Sizeof(unix.CryptoUserAlg{})`. -/
def sizeofCryptoUserAlg : Nat := 64 + 64 + 64 + 4 + 4 + 4 + 4

/-- The constant `sizeofCryptoReportCipher`. -/
def sizeofCryptoReportCipher : Nat := 64 + 4 + 4 + 4

/-- The constant `sizeofCryptoReportHash`. -/
def sizeofCryptoReportHash : Nat := 64 + 4 + 4

/-- Modelled from the spec: the attribute type `unix.CRYPTOCFGA_PRIORITY_VAL`
(the spec's tag PRIORITY), with the value of the kernel's `cryptouser.h`. -/
def CRYPTOCFGA_PRIORITY_VAL : Nat := 1

/-- Modelled from the spec: the attribute type `unix.CRYPTOCFGA_REPORT_HASH`
(the spec's tag REPORT_HASH), with the value of the kernel's `cryptouser.h`. -/
def CRYPTOCFGA_REPORT_HASH : Nat := 3

/-- Modelled from the spec: the attribute type `unix.CRYPTOCFGA_REPORT_CIPHER`
(the spec's tag REPORT_CIPHER), with the value of the kernel's `cryptouser.h`. -/
def CRYPTOCFGA_REPORT_CIPHER : Nat := 8

/-- The overlay `*(*unix.CryptoUserAlg)(unsafe.Pointer(&b[0]))`: the structure
read from the first `sizeofCryptoUserAlg` bytes at `b`; `none` when `b` does
not hold that many bytes. -/
def CryptoUserAlg.overlay (t : Target) (b : List Byte) : Option CryptoUserAlg :=
  if b.length < sizeofCryptoUserAlg then none
  else some
    { Name := (b.take 64).map Int8.ofUint8
      Driver_name := ((b.drop 64).take 64).map Int8.ofUint8
      Module_name := ((b.drop 128).take 64).map Int8.ofUint8
      Type_ := t.NativeEndian.Uint32 (b.drop 192)
      Mask := t.NativeEndian.Uint32 (b.drop 196)
      Refcnt := t.NativeEndian.Uint32 (b.drop 200)
      Flags := t.NativeEndian.Uint32 (b.drop 204) }

/-- The overlay `*(*unix.CryptoReportCipher)(unsafe.Pointer(&b[0]))`; `none`
when `b` does not hold `sizeofCryptoReportCipher` bytes. -/
def CryptoReportCipher.overlay (t : Target) (b : List Byte) : Option CryptoReportCipher :=
  if b.length < sizeofCryptoReportCipher then none
  else some
    { Type_ := (b.take 64).map Int8.ofUint8
      Blocksize := t.NativeEndian.Uint32 (b.drop 64)
      Min_keysize := t.NativeEndian.Uint32 (b.drop 68)
      Max_keysize := t.NativeEndian.Uint32 (b.drop 72) }

/-- The overlay `*(*unix.CryptoReportHash)(unsafe.Pointer(&b[0]))`; `none` when
`b` does not hold `sizeofCryptoReportHash` bytes. -/
def CryptoReportHash.overlay (t : Target) (b : List Byte) : Option CryptoReportHash :=
  if b.length < sizeofCryptoReportHash then none
  else some
    { Type_ := (b.take 64).map Int8.ofUint8
      Blocksize := t.NativeEndian.Uint32 (b.drop 64)
      Digestsize := t.NativeEndian.Uint32 (b.drop 68) }

/-! ## Attribute walker (`github.com/mdlayher/netlink`) -/

/-- Modelled from the spec: the constants of the netlink library are not among
the sources. Section 6: the header of an attribute is a 2-byte length and a
2-byte type. -/
def nlaHeaderLen : Nat := 4

/-- Modelled from the spec: the alignment helper of the netlink library is not
among the sources. Section 6: attributes are 4-byte-aligned; `nlaAlign` rounds
a length up to a multiple of 4. -/
def nlaAlign (n : Nat) : Nat := (n + 3) / 4 * 4

/-- Modelled from the spec: `netlink.Attribute` is not among the sources.
Section 6: the declared length (header included), the type and the value. -/
structure Attribute where
  Length : Nat
  Type_ : Nat
  Data : List Byte
  deriving DecidableEq

/-- Modelled from the spec: the attribute parser of the netlink library is not
among the sources. Section 6 has an attribute be a 2-byte length, a 2-byte
type, then `length - 4` bytes of value; section 4.3 has the walk fail when a
declared length exceeds the remaining buffer. A buffer too short for a header
and a declared length too short for a header are rejected likewise. -/
def Attribute.unmarshal (bo : ByteOrder) (b : List Byte) : Result Attribute :=
  if b.length < nlaHeaderLen then .error .invalidAttribute
  else
    let length := bo.Uint16 b
    let type := bo.Uint16 (b.drop 2)
    if b.length < length then .error .invalidAttribute
    else if length < nlaHeaderLen then .error .invalidAttribute
    else .ok { Length := length, Type_ := type, Data := (b.take length).drop nlaHeaderLen }

/-- Modelled from the spec: `netlink.AttributeDecoder` is not among the sources.
Section 4.3 describes a cursor over the buffer with a deferred error: `a` is
the current attribute, `b` the bytes not yet walked, `err` the first error met. -/
structure AttributeDecoder where
  ByteOrder : Cryptonl.ByteOrder
  a : Attribute
  b : List Byte
  err : Option Error
  deriving DecidableEq

/-- Modelled from the spec: `netlink.NewAttributeDecoder`, not among the sources.
The walk is lazy (section 4.3), so that the decoder is set up at the start of
the buffer with no error, in native byte order. -/
def NewAttributeDecoder (t : Target) (b : List Byte) : Result AttributeDecoder :=
  .ok { ByteOrder := t.NativeEndian, a := { Length := 0, Type_ := 0, Data := [] }, b := b,
        err := none }

/-- Modelled from the spec: `AttributeDecoder.Next`, not among the sources.
Section 4.3: no step after an error; a clean stop when the buffer is
exhausted; else the attribute at the cursor is parsed, a failure is recorded
for `Err`, and the cursor moves past the attribute and its padding to the next
4-byte boundary. -/
def AttributeDecoder.Next (ad : AttributeDecoder) : Bool × AttributeDecoder :=
  if ad.err.isSome then (false, ad)
  else if ad.b.length = 0 then (false, ad)
  else
    match Attribute.unmarshal ad.ByteOrder ad.b with
    | .ok a => (true, { ad with a := a, b := ad.b.drop (nlaAlign a.Length) })
    | .error e => (false, { ad with err := some e })
    | .fault => (false, ad)

/-- Modelled from the spec: `AttributeDecoder.Type`, not among the sources: the
16-bit tag of the current attribute (section 4.3). -/
def AttributeDecoder.Type_ (ad : AttributeDecoder) : Nat :=
  ad.a.Type_

/-- Modelled from the spec: `AttributeDecoder.Err`, not among the sources: the
explicit error check of section 4.3. -/
def AttributeDecoder.Err (ad : AttributeDecoder) : Option Error :=
  ad.err

/-- Modelled from the spec: `AttributeDecoder.Uint32`, not among the sources:
the payload of the current attribute as an unsigned 32-bit integer in the
decoder's byte order (section 4.4). It is one of the typed accessors of
section 4.3, where malformed lengths surface as the final error of the walk:
after an error, or on a payload that is not 4 bytes long (which is recorded
as the error), the result is 0. -/
def AttributeDecoder.Uint32 (ad : AttributeDecoder) : Nat × AttributeDecoder :=
  if ad.err.isSome then (0, ad)
  else if ad.a.Data.length ≠ 4 then
    (0, { ad with err := some (.notUint32 ad.Type_ ad.a.Data.length) })
  else (ad.ByteOrder.Uint32 ad.a.Data, ad)

/-- Modelled from the spec: `AttributeDecoder.Do`, not among the sources: hands
the payload of the current attribute to `fn` and records the error `fn`
returns, if any. Here `fn` returns the new contents of the variable it
assigns, of which `s` is the contents so far; `none` is a fault in `fn`. -/
def AttributeDecoder.Do {σ : Type} (ad : AttributeDecoder) (fn : List Byte → Result σ) (s : σ) :
    Option (AttributeDecoder × σ) :=
  if ad.err.isSome then some (ad, s)
  else
    match fn ad.a.Data with
    | .ok s1 => some (ad, s1)
    | .error e => some ({ ad with err := some e }, s)
    | .fault => none

/-! ## Algorithm record decoder (`algorithm_linux.go`) -/

/-- The closure returned by `parseCipher(alg)`, as the value it assigns to
`*alg` when it returns nil. The field `Type` is `[64]int8`, decoded by the
`str` of `str_int8.go`. -/
def parseCipher (t : Target) (b : List Byte) : Result (Option AlgorithmType) :=
  if b.length ≠ sizeofCryptoReportCipher then
    .error (.cryptoReportCipher sizeofCryptoReportCipher b.length)
  else
    match CryptoReportCipher.overlay t b with
    | none => .fault
    | some c =>
      .ok (some (.Cipher
        { BlockSize := t.int c.Blocksize
          MinKeySize := t.int c.Min_keysize
          MaxKeySize := t.int c.Max_keysize
          typer := Int8Arch.str c.Type_ }))

/-- The closure returned by `parseHash(alg)`, as the value it assigns to `*alg`
when it returns nil. -/
def parseHash (t : Target) (b : List Byte) : Result (Option AlgorithmType) :=
  if b.length ≠ sizeofCryptoReportHash then
    .error (.cryptoReportHash sizeofCryptoReportHash b.length)
  else
    match CryptoReportHash.overlay t b with
    | none => .fault
    | some c =>
      .ok (some (.Hash
        { BlockSize := t.int c.Blocksize
          DigestSize := t.int c.Digestsize
          typer := Int8Arch.str c.Type_ }))

/-- The body of the loop `for ad.Next() { switch ad.Type() { ... } }` of
`parseAlgorithm`, run on the attribute `ad.Next` has just made current. -/
def parseAlgorithm.body (t : Target) (ad : AttributeDecoder) (a : Algorithm) :
    Option (AttributeDecoder × Algorithm) :=
  if ad.Type_ = CRYPTOCFGA_PRIORITY_VAL then
    let (v, ad) := ad.Uint32
    some (ad, { a with Priority := t.int v })
  else if ad.Type_ = CRYPTOCFGA_REPORT_CIPHER then
    match ad.Do (parseCipher t) a.Type_ with
    | some (ad, ty) => some (ad, { a with Type_ := ty })
    | none => none
  else if ad.Type_ = CRYPTOCFGA_REPORT_HASH then
    match ad.Do (parseHash t) a.Type_ with
    | some (ad, ty) => some (ad, { a with Type_ := ty })
    | none => none
  else some (ad, a)

/-- The loop `for ad.Next() { ... }` of `parseAlgorithm`, with a bound on the
number of calls of `Next`; `none` is a fault. -/
def parseAlgorithm.loop (t : Target) :
    Nat → AttributeDecoder → Algorithm → Option (AttributeDecoder × Algorithm)
  | 0, ad, a => some (ad, a)
  | fuel + 1, ad, a =>
    match ad.Next with
    | (false, ad) => some (ad, a)
    | (true, ad) =>
      match parseAlgorithm.body t ad a with
      | some (ad, a) => parseAlgorithm.loop t fuel ad a
      | none => none

/-- The function `parseAlgorithm` of `algorithm_linux.go`, built with
`str_int8.go`. The loop is given one call of `Next` per byte of the attribute
stream and one more, which is more than it can use. -/
def parseAlgorithm (t : Target) (b : List Byte) : Result Algorithm :=
  if b.length < sizeofCryptoUserAlg then
    .error (.cryptoUserAlg sizeofCryptoUserAlg b.length)
  else
    match sliceFrom b sizeofCryptoUserAlg with
    | none => .fault
    | some attrs =>
      match NewAttributeDecoder t attrs with
      | .error err => .error err
      | .fault => .fault
      | .ok ad =>
        match (sliceTo b sizeofCryptoUserAlg).bind (CryptoUserAlg.overlay t) with
        | none => .fault
        | some ualg =>
          let a : Algorithm :=
            { Name := Int8Arch.str ualg.Name
              Driver := Int8Arch.str ualg.Driver_name
              Module := Int8Arch.str ualg.Module_name
              Priority := 0
              Type_ := none }
          match parseAlgorithm.loop t (attrs.length + 1) ad a with
          | none => .fault
          | some (ad, a) =>
            match ad.Err with
            | some err => .error err
            | none => .ok a

/-! ## Enumeration client (`conn.go`) -/

/-- A `netlink.Message`, of which the package reads the field `Data`. -/
structure Message where
  Data : List Byte
  deriving DecidableEq

/-- A `Conn`, as what its transport `c.c.Execute` returns for the one dump
request of `Algorithms`. -/
structure Conn where
  Execute : Result (List Message)

/-- The loop `for _, m := range msgs` of `Conn.Algorithms`; `algs` is the slice
built so far. -/
def Conn.Algorithms.loop (t : Target) : List Message → List Algorithm → Result (List Algorithm)
  | [], algs => .ok algs
  | m :: msgs, algs =>
    match parseAlgorithm t m.Data with
    | .error err => .error err
    | .fault => .fault
    | .ok a => Conn.Algorithms.loop t msgs (algs ++ [a])

/-- The method `Conn.Algorithms` of `conn.go`. -/
def Conn.Algorithms (t : Target) (c : Conn) : Result (List Algorithm) :=
  match c.Execute with
  | .error err => .error err
  | .fault => .fault
  | .ok msgs => Conn.Algorithms.loop t msgs []

/-! ## Test encoder (`conn_linux_test.go`) -/

/-- Modelled from the spec: the attribute encoder of the netlink library is not
among the sources. Section 6: the 2-byte length, the 2-byte type, the value,
then zero padding up to the next 4-byte boundary. -/
def Attribute.marshal (bo : ByteOrder) (a : Attribute) : List Byte :=
  bo.PutUint16 a.Length ++ bo.PutUint16 a.Type_ ++ a.Data ++
    List.replicate (nlaAlign a.Length - a.Length) 0

/-- Modelled from the spec: `netlink.AttributeEncoder`, not among the sources:
the attributes added so far, in order. -/
structure AttributeEncoder where
  ByteOrder : Cryptonl.ByteOrder
  attrs : List Attribute

/-- Modelled from the spec: `netlink.NewAttributeEncoder`, not among the
sources: no attribute yet, native byte order. -/
def NewAttributeEncoder (t : Target) : AttributeEncoder :=
  { ByteOrder := t.NativeEndian, attrs := [] }

/-- Modelled from the spec: `AttributeEncoder.Do`, not among the sources: adds an
attribute of type `typ` whose value is the bytes `data` returned by the
callback. -/
def AttributeEncoder.Do (ae : AttributeEncoder) (typ : Nat) (data : List Byte) :
    AttributeEncoder :=
  { ae with attrs := ae.attrs ++ [{ Length := nlaHeaderLen + data.length, Type_ := typ,
                                    Data := data }] }

/-- Modelled from the spec: `AttributeEncoder.Uint32`, not among the sources:
adds an attribute of type `typ` whose value is the 4 bytes of `v`. -/
def AttributeEncoder.Uint32 (ae : AttributeEncoder) (typ : Nat) (v : Nat) : AttributeEncoder :=
  ae.Do typ (ae.ByteOrder.PutUint32 v)

/-- Modelled from the spec: `AttributeEncoder.Encode`, not among the sources: the
attributes one after the other. -/
def AttributeEncoder.Encode (ae : AttributeEncoder) : List Byte :=
  (ae.attrs.map (Attribute.marshal ae.ByteOrder)).flatten

/-- The bytes of a `unix.CryptoUserAlg` in memory:
`*(*[sizeofCryptoUserAlg]byte)(unsafe.Pointer(&r.UserAlg))`. -/
def CryptoUserAlg.bytes (t : Target) (u : CryptoUserAlg) : List Byte :=
  u.Name.map Int8.toUint8 ++ u.Driver_name.map Int8.toUint8 ++ u.Module_name.map Int8.toUint8 ++
    t.NativeEndian.PutUint32 u.Type_ ++ t.NativeEndian.PutUint32 u.Mask ++
    t.NativeEndian.PutUint32 u.Refcnt ++ t.NativeEndian.PutUint32 u.Flags

/-- The bytes of a `unix.CryptoReportCipher` in memory. -/
def CryptoReportCipher.bytes (t : Target) (c : CryptoReportCipher) : List Byte :=
  c.Type_.map Int8.toUint8 ++ t.NativeEndian.PutUint32 c.Blocksize ++
    t.NativeEndian.PutUint32 c.Min_keysize ++ t.NativeEndian.PutUint32 c.Max_keysize

/-- The bytes of a `unix.CryptoReportHash` in memory. -/
def CryptoReportHash.bytes (t : Target) (c : CryptoReportHash) : List Byte :=
  c.Type_.map Int8.toUint8 ++ t.NativeEndian.PutUint32 c.Blocksize ++
    t.NativeEndian.PutUint32 c.Digestsize

/-- The dynamic value of the field `Alg interface{}` of a `response`. -/
inductive ReportAlg where
  | CryptoReportCipher (a : CryptoReportCipher)
  | CryptoReportHash (a : CryptoReportHash)
  | other

/-- The type `response` of `conn_linux_test.go`. -/
structure response where
  UserAlg : CryptoUserAlg
  Priority : Nat
  Alg : ReportAlg

/-- The function `mustEncodeResponse` of `conn_linux_test.go`; `none` is the
panic on an unhandled type of `r.Alg`. -/
def mustEncodeResponse (t : Target) (r : response) : Option (List Byte) :=
  let ae := NewAttributeEncoder t
  let ae := ae.Uint32 CRYPTOCFGA_PRIORITY_VAL r.Priority
  let ae : Option AttributeEncoder :=
    match r.Alg with
    | .CryptoReportCipher a => some (ae.Do CRYPTOCFGA_REPORT_CIPHER (a.bytes t))
    | .CryptoReportHash a => some (ae.Do CRYPTOCFGA_REPORT_HASH (a.bytes t))
    | .other => none
  match ae with
  | none => none
  | some ae =>
    let ab := ae.Encode
    let b := r.UserAlg.bytes t
    some (b ++ ab)

/-- The function `encodeBad` of `Test_parseAlgorithmError`: a zeroed header
followed by one attribute of type `typ` with the one-byte value `0xff`. -/
def encodeBad (t : Target) (typ : Nat) : List Byte :=
  let b : List Byte := List.replicate sizeofCryptoUserAlg 0
  let ae := NewAttributeEncoder t
  let ae := ae.Do typ [0xff]
  let ab := ae.Encode
  b ++ ab

/-! ## Attribute streams -/

/-- An attribute as it lies in a buffer: the attribute, and the padding bytes
that follow its payload. -/
structure PaddedAttribute where
  attr : Attribute
  pad : List Byte
  deriving DecidableEq

/-- A well-formed attribute of a buffer: the declared length counts the header
and the payload, the length and the type each fit 16 bits, and the padding,
of any bytes, runs up to the next 4-byte boundary. -/
def PaddedAttribute.WellFormed (p : PaddedAttribute) : Prop :=
  p.attr.Length = nlaHeaderLen + p.attr.Data.length ∧ p.attr.Length < 65536 ∧
    p.attr.Type_ < 65536 ∧ p.pad.length = nlaAlign p.attr.Length - p.attr.Length

instance (p : PaddedAttribute) : Decidable p.WellFormed := by
  unfold PaddedAttribute.WellFormed
  infer_instance

/-- The bytes of an attribute in a buffer (section 6): the 2-byte length, the
2-byte type, the payload, the padding. -/
def PaddedAttribute.bytes (bo : ByteOrder) (p : PaddedAttribute) : List Byte :=
  bo.PutUint16 p.attr.Length ++ bo.PutUint16 p.attr.Type_ ++ p.attr.Data ++ p.pad

/-- An attribute with the zero padding `Attribute.marshal` gives it. -/
def Attribute.padded (a : Attribute) : PaddedAttribute :=
  { attr := a, pad := List.replicate (nlaAlign a.Length - a.Length) 0 }

/-- The bytes of a sequence of attributes lying one after the other in a buffer:
an attribute stream, or the start of one. -/
def attributeStream (bo : ByteOrder) (attrs : List PaddedAttribute) : List Byte :=
  (attrs.map (PaddedAttribute.bytes bo)).flatten

/-- What `parseAlgorithm` reads of its final state: the deferred error of the
decoder and the record. -/
def parseAlgorithm.outcome (p : Option (AttributeDecoder × Algorithm)) :
    Option (Option Error × Algorithm) :=
  p.map (fun q => (q.1.err, q.2))

/-- The response `TestConnAlgorithms` builds for a cipher: the three names and
the type label packed with `pack`, the other words of the header as in `ualg`. -/
def cipherResponse (ualg : CryptoUserAlg) (name driver module : GoString) (priority : Nat)
    (label : GoString) (blocksize minKeysize maxKeysize : Nat) : response :=
  { UserAlg :=
      { ualg with
        Name := Int8Arch.pack name
        Driver_name := Int8Arch.pack driver
        Module_name := Int8Arch.pack module }
    Priority := priority
    Alg := .CryptoReportCipher
      { Type_ := Int8Arch.pack label
        Blocksize := blocksize
        Min_keysize := minKeysize
        Max_keysize := maxKeysize } }

/-- The response `TestConnAlgorithms` builds for a hash. -/
def hashResponse (ualg : CryptoUserAlg) (name driver module : GoString) (priority : Nat)
    (label : GoString) (blocksize digestsize : Nat) : response :=
  { UserAlg :=
      { ualg with
        Name := Int8Arch.pack name
        Driver_name := Int8Arch.pack driver
        Module_name := Int8Arch.pack module }
    Priority := priority
    Alg := .CryptoReportHash
      { Type_ := Int8Arch.pack label
        Blocksize := blocksize
        Digestsize := digestsize } }

/-- A `uint32` value that the conversion to `int` leaves unchanged on the target:
any on a target with a 64-bit `int`, those below `2 ^ 31` otherwise. -/
def Target.intHolds (t : Target) (v : Nat) : Prop :=
  v < 4294967296 ∧ (t.int64 = true ∨ v < 2147483648)

instance (t : Target) (v : Nat) : Decidable (t.intHolds v) := by
  unfold Target.intHolds
  infer_instance

/-- A string that a 64-byte field holds in full: at most 64 bytes, none zero. -/
def fitsField (s : GoString) : Prop :=
  s.length ≤ 64 ∧ (0 : Byte) ∉ s

instance (s : GoString) : Decidable (fitsField s) := by
  unfold fitsField
  infer_instance

/-- The attributes a walk yields, in buffer order: those `Next` makes current one
after the other until it returns false. The bound on the number of calls of
`Next` is that of `parseAlgorithm.loop`. -/
def AttributeDecoder.attributes : Nat → AttributeDecoder → List Attribute
  | 0, _ => []
  | fuel + 1, ad =>
    match ad.Next with
    | (false, _) => []
    | (true, ad) => ad.a :: AttributeDecoder.attributes fuel ad

/-- The attributes of the attribute stream of the message `b`, in buffer order:
those the decoder `parseAlgorithm` sets up after the header yields. -/
def messageAttributes (t : Target) (b : List Byte) : List Attribute :=
  match NewAttributeDecoder t (b.drop sizeofCryptoUserAlg) with
  | .ok ad => ad.attributes ((b.drop sizeofCryptoUserAlg).length + 1)
  | .error _ => []
  | .fault => []

/-! ## Sample inputs -/

/-- A little-endian target with a 64-bit `int`, such as linux/amd64. -/
def Target.amd64 : Target := { NativeEndian := .LittleEndian, int64 := true }

/-- A little-endian target with a 32-bit `int`, such as linux/386. -/
def Target.i386 : Target := { NativeEndian := .LittleEndian, int64 := false }

/-- A big-endian target with a 64-bit `int`, such as linux/s390x. -/
def Target.s390x : Target := { NativeEndian := .BigEndian, int64 := true }

/-- The zeroed header `make([]byte, sizeofCryptoUserAlg)` of `encodeBad`. -/
def zeroHeader : List Byte := List.replicate sizeofCryptoUserAlg 0

/-- The record decoded from a zeroed header with no attribute. -/
def emptyAlgorithm : Algorithm :=
  { Name := [], Driver := [], Module := [], Priority := 0, Type_ := none }

/-- A header of which every field is zero. -/
def zeroUserAlg : CryptoUserAlg :=
  { Name := [], Driver_name := [], Module_name := [], Type_ := 0, Mask := 0, Refcnt := 0,
    Flags := 0 }

/-- A priority attribute holding 300, with no padding. -/
def samplePriority : PaddedAttribute :=
  { attr := { Length := 8, Type_ := 1, Data := [44, 1, 0, 0] }, pad := [] }

/-- An attribute of type `typ` with the one-byte payload `0xff` of `encodeBad` and
three bytes of padding, not all zero. -/
def sampleAttribute (typ : Nat) : PaddedAttribute :=
  { attr := { Length := 5, Type_ := typ, Data := [0xff] }, pad := [0, 0xaa, 0] }

/-- The first response of `TestConnAlgorithms`: "sha1", "sha1-generic", "kernel",
priority 0, a hash report "shash" with block size 64 and digest size 20. -/
def sha1Response : response :=
  hashResponse zeroUserAlg [0x73, 0x68, 0x61, 0x31]
    [0x73, 0x68, 0x61, 0x31, 0x2d, 0x67, 0x65, 0x6e, 0x65, 0x72, 0x69, 0x63]
    [0x6b, 0x65, 0x72, 0x6e, 0x65, 0x6c] 0 [0x73, 0x68, 0x61, 0x73, 0x68] 64 20

/-- The record `sha1` of `TestConnAlgorithms`. -/
def sha1Algorithm : Algorithm :=
  { Name := [0x73, 0x68, 0x61, 0x31]
    Driver := [0x73, 0x68, 0x61, 0x31, 0x2d, 0x67, 0x65, 0x6e, 0x65, 0x72, 0x69, 0x63]
    Module := [0x6b, 0x65, 0x72, 0x6e, 0x65, 0x6c]
    Priority := 0
    Type_ := some (.Hash
      { BlockSize := 64, DigestSize := 20, typer := [0x73, 0x68, 0x61, 0x73, 0x68] }) }

/-- The second response of `TestConnAlgorithms`: "aes", "aes-aesni", "aesni_intel",
priority 300, a cipher report "cipher" with block size 16 and key sizes 16 to 32. -/
def aesResponse : response :=
  cipherResponse zeroUserAlg [0x61, 0x65, 0x73]
    [0x61, 0x65, 0x73, 0x2d, 0x61, 0x65, 0x73, 0x6e, 0x69]
    [0x61, 0x65, 0x73, 0x6e, 0x69, 0x5f, 0x69, 0x6e, 0x74, 0x65, 0x6c] 300
    [0x63, 0x69, 0x70, 0x68, 0x65, 0x72] 16 16 32

/-- The record `aes` of `TestConnAlgorithms`. -/
def aesAlgorithm : Algorithm :=
  { Name := [0x61, 0x65, 0x73]
    Driver := [0x61, 0x65, 0x73, 0x2d, 0x61, 0x65, 0x73, 0x6e, 0x69]
    Module := [0x61, 0x65, 0x73, 0x6e, 0x69, 0x5f, 0x69, 0x6e, 0x74, 0x65, 0x6c]
    Priority := 300
    Type_ := some (.Cipher
      { BlockSize := 16, MinKeySize := 16, MaxKeySize := 32,
        typer := [0x63, 0x69, 0x70, 0x68, 0x65, 0x72] }) }

/-- The connection of `testConn`: its transport returns one message per response,
in order. -/
def testConn (t : Target) (res : List response) : Conn :=
  { Execute := .ok (res.map (fun r => { Data := (mustEncodeResponse t r).getD [] })) }

/-- A cipher report attribute: an empty type label, block size 16, key sizes 16
to 32, in little-endian byte order. -/
def sampleCipher : PaddedAttribute :=
  Attribute.padded
    { Length := 80, Type_ := 8,
      Data := List.replicate 64 0 ++ [16, 0, 0, 0, 16, 0, 0, 0, 32, 0, 0, 0] }

/-- A hash report attribute: an empty type label, block size 64, digest size 20,
in little-endian byte order. -/
def sampleHash : PaddedAttribute :=
  Attribute.padded
    { Length := 76, Type_ := 3, Data := List.replicate 64 0 ++ [64, 0, 0, 0, 20, 0, 0, 0] }

/-- A message with a zeroed header and the given attributes, for a little-endian
target. -/
def sampleMessage (attrs : List PaddedAttribute) : List Byte :=
  zeroHeader ++ attributeStream .LittleEndian attrs

/-- The message `mustEncodeResponse` builds for the first response of
`TestConnAlgorithms` on a little-endian target. -/
def sha1Message : List Byte :=
  (mustEncodeResponse Target.amd64 sha1Response).getD []

/-- The string "sha1". -/
def sha1Name : GoString := [0x73, 0x68, 0x61, 0x31]

/-! ## Lemmas: machine types -/

theorem Int8.toUint8_ofUint8 (u : Byte) : (Int8.ofUint8 u).toUint8 = u := by
  have h := u.isLt
  apply Fin.ext
  simp only [Int8.toUint8, Int8.ofUint8, Fin.ofNat]
  split <;> omega

theorem Int8.map_toUint8_ofUint8 (l : List Byte) :
    (l.map Int8.ofUint8).map Int8.toUint8 = l := by
  induction l with
  | nil => rfl
  | cons x xs ih =>
    simp only [List.map_cons, Int8.toUint8_ofUint8, List.cons.injEq, true_and]
    exact ih

theorem copy_length {α : Type} (dst src : List α) : (copy dst src).length = dst.length := by
  simp only [copy, List.length_append, List.length_take, List.length_drop]
  omega

/-! ## Lemmas: string codec -/

theorem nlencString_not_mem_zero (a : List Byte) : (0 : Byte) ∉ nlencString a := by
  induction a with
  | nil => simp [nlencString]
  | cons c cs ih =>
    by_cases hc : c = 0
    · simp [nlencString, hc]
    · simp only [nlencString, hc, if_false, List.mem_cons, not_or]
      exact ⟨fun h => hc h.symm, ih⟩

theorem nlencString_of_not_mem (a : List Byte) (h : (0 : Byte) ∉ a) : nlencString a = a := by
  induction a with
  | nil => rfl
  | cons c cs ih =>
    simp only [List.mem_cons, not_or] at h
    have hc : c ≠ 0 := fun e => h.1 e.symm
    simp only [nlencString, hc, if_false, List.cons.injEq, true_and]
    exact ih h.2

theorem nlencString_split (a : List Byte) :
    ∃ rest, a = nlencString a ++ rest ∧ (rest = [] ∨ ∃ tl, rest = 0 :: tl) := by
  induction a with
  | nil => exact ⟨[], rfl, Or.inl rfl⟩
  | cons c cs ih =>
    by_cases hc : c = 0
    · exact ⟨c :: cs, by simp [nlencString, hc], Or.inr ⟨cs, by rw [hc]⟩⟩
    · obtain ⟨rest, h1, h2⟩ := ih
      refine ⟨rest, ?_, h2⟩
      simp only [nlencString, hc, if_false, List.cons_append, List.cons.injEq, true_and]
      exact h1

theorem nlencString_length_le (a : List Byte) : (nlencString a).length ≤ a.length := by
  induction a with
  | nil => simp [nlencString]
  | cons c cs ih =>
    by_cases hc : c = 0
    · simp [nlencString, hc]
    · simp only [nlencString, hc, if_false, List.length_cons]
      omega

theorem nlencString_append_zeros (s : List Byte) (h : (0 : Byte) ∉ s) (n : Nat) :
    nlencString (s ++ List.replicate n 0) = s := by
  induction s with
  | nil =>
    cases n with
    | zero => rfl
    | succ k => simp [nlencString, List.replicate]
  | cons c cs ih =>
    simp only [List.mem_cons, not_or] at h
    have hc : c ≠ 0 := fun e => h.1 e.symm
    simp only [List.cons_append, nlencString, hc, if_false, List.cons.injEq, true_and]
    exact ih h.2

namespace Int8Arch

theorem pack_length (s : GoString) : (pack s).length = 64 := by
  simp [pack, copy_length]

theorem map_toUint8_pack (s : GoString) :
    (pack s).map Int8.toUint8 = s.take 64 ++ List.replicate (64 - s.length) 0 := by
  simp only [pack, copy, Int8.map_toUint8_ofUint8, List.length_replicate, List.drop_replicate]

theorem str_map_ofUint8 (b : List Byte) : str (b.map Int8.ofUint8) = nlencString b := by
  simp only [str, Int8.map_toUint8_ofUint8]

theorem str_pack (s : GoString) (hlen : s.length ≤ 64) (h0 : (0 : Byte) ∉ s) :
    str (pack s) = s := by
  rw [str, map_toUint8_pack, List.take_of_length_le hlen]
  exact nlencString_append_zeros s h0 _

end Int8Arch

/-! ## Lemmas: integers on the wire -/

theorem ByteOrder.PutUint16_length (bo : ByteOrder) (v : Nat) : (bo.PutUint16 v).length = 2 := by
  cases bo <;> rfl

theorem ByteOrder.PutUint32_length (bo : ByteOrder) (v : Nat) : (bo.PutUint32 v).length = 4 := by
  cases bo <;> rfl

theorem ByteOrder.Uint16_PutUint16 (bo : ByteOrder) (v : Nat) (rest : List Byte)
    (h : v < 65536) : bo.Uint16 (bo.PutUint16 v ++ rest) = v := by
  cases bo <;> simp only [ByteOrder.PutUint16, ByteOrder.Uint16, List.cons_append,
    List.nil_append, Fin.ofNat] <;> omega

theorem ByteOrder.Uint32_PutUint32 (bo : ByteOrder) (v : Nat) (rest : List Byte)
    (h : v < 4294967296) : bo.Uint32 (bo.PutUint32 v ++ rest) = v := by
  cases bo <;> simp only [ByteOrder.PutUint32, ByteOrder.Uint32, List.cons_append,
    List.nil_append, Fin.ofNat] <;> omega

theorem nlaAlign_ge (n : Nat) : n ≤ nlaAlign n := by
  unfold nlaAlign
  omega

/-! ## Lemmas: attributes in a buffer -/

theorem PaddedAttribute.bytes_length (bo : ByteOrder) (p : PaddedAttribute)
    (h : p.WellFormed) : (p.bytes bo).length = nlaAlign p.attr.Length := by
  obtain ⟨h1, _, _, h4⟩ := h
  have h2 := nlaAlign_ge p.attr.Length
  simp only [PaddedAttribute.bytes, List.length_append, ByteOrder.PutUint16_length, h4]
  simp only [nlaHeaderLen] at h1
  omega

theorem PaddedAttribute.bytes_length_pos (bo : ByteOrder) (p : PaddedAttribute)
    (h : p.WellFormed) : 4 ≤ (p.bytes bo).length := by
  have h1 := h.1
  have h2 := nlaAlign_ge p.attr.Length
  rw [PaddedAttribute.bytes_length bo p h]
  simp only [nlaHeaderLen] at h1
  omega

theorem Attribute.unmarshal_bytes (bo : ByteOrder) (p : PaddedAttribute) (h : p.WellFormed)
    (rest : List Byte) : Attribute.unmarshal bo (p.bytes bo ++ rest) = .ok p.attr := by
  have hlen := PaddedAttribute.bytes_length bo p h
  obtain ⟨h1, h2, h3, _⟩ := h
  have hge := nlaAlign_ge p.attr.Length
  simp only [nlaHeaderLen] at h1
  have e1 : p.bytes bo ++ rest =
      bo.PutUint16 p.attr.Length ++ (bo.PutUint16 p.attr.Type_ ++
        (p.attr.Data ++ (p.pad ++ rest))) := by
    simp only [PaddedAttribute.bytes, List.append_assoc]
  have hU : bo.Uint16 (p.bytes bo ++ rest) = p.attr.Length := by
    rw [e1]
    exact ByteOrder.Uint16_PutUint16 bo p.attr.Length _ h2
  have hT : bo.Uint16 ((p.bytes bo ++ rest).drop 2) = p.attr.Type_ := by
    rw [e1, List.drop_left' (ByteOrder.PutUint16_length bo p.attr.Length)]
    exact ByteOrder.Uint16_PutUint16 bo p.attr.Type_ _ h3
  have hD : ((p.bytes bo ++ rest).take p.attr.Length).drop 4 = p.attr.Data := by
    rw [e1, ← List.append_assoc, ← List.append_assoc]
    have hl : (bo.PutUint16 p.attr.Length ++ bo.PutUint16 p.attr.Type_ ++
        p.attr.Data).length = p.attr.Length := by
      simp only [List.length_append, ByteOrder.PutUint16_length]
      omega
    rw [List.take_left' hl, List.drop_left']
    simp only [List.length_append, ByteOrder.PutUint16_length]
  have hL : (p.bytes bo ++ rest).length = nlaAlign p.attr.Length + rest.length := by
    rw [List.length_append, hlen]
  unfold Attribute.unmarshal
  simp only [hU, hT, hD, hL, nlaHeaderLen]
  rw [if_neg (by omega), if_neg (by omega), if_neg (by omega)]

theorem Attribute.marshal_eq_bytes (bo : ByteOrder) (a : Attribute) :
    a.marshal bo = a.padded.bytes bo := rfl

theorem Attribute.padded_wellFormed (a : Attribute)
    (h1 : a.Length = nlaHeaderLen + a.Data.length) (h2 : a.Length < 65536)
    (h3 : a.Type_ < 65536) : a.padded.WellFormed :=
  ⟨h1, h2, h3, by simp [Attribute.padded]⟩

theorem attributeStream_cons (bo : ByteOrder) (p : PaddedAttribute)
    (attrs : List PaddedAttribute) :
    attributeStream bo (p :: attrs) = p.bytes bo ++ attributeStream bo attrs := by
  simp [attributeStream]

theorem attributeStream_length_ge (bo : ByteOrder) (attrs : List PaddedAttribute)
    (h : ∀ p ∈ attrs, p.WellFormed) : attrs.length ≤ (attributeStream bo attrs).length := by
  induction attrs with
  | nil => simp [attributeStream]
  | cons a as ih =>
    have h1 := PaddedAttribute.bytes_length_pos bo a (h a (List.mem_cons_self a as))
    have h2 := ih (fun x hx => h x (List.mem_cons_of_mem a hx))
    rw [attributeStream_cons, List.length_append, List.length_cons]
    omega

/-! ## Lemmas: the attribute decoder -/

theorem AttributeDecoder.Next_bytes (ad : AttributeDecoder) (p : PaddedAttribute)
    (h : p.WellFormed) (rest : List Byte) (herr : ad.err = none)
    (hb : ad.b = p.bytes ad.ByteOrder ++ rest) :
    ad.Next = (true, { ad with a := p.attr, b := rest }) := by
  have hpos := PaddedAttribute.bytes_length_pos ad.ByteOrder p h
  have hlen : ad.b.length ≠ 0 := by
    rw [hb, List.length_append]
    omega
  unfold AttributeDecoder.Next
  rw [herr]
  simp only [Option.isSome_none, Bool.false_eq_true, if_false, hlen]
  rw [hb, Attribute.unmarshal_bytes ad.ByteOrder p h rest]
  simp only [List.drop_left' (PaddedAttribute.bytes_length ad.ByteOrder p h)]

theorem AttributeDecoder.Next_err (ad : AttributeDecoder) (e : Error) (herr : ad.err = some e) :
    ad.Next = (false, ad) := by
  unfold AttributeDecoder.Next
  rw [herr]
  rfl

theorem AttributeDecoder.Next_true (ad ad1 : AttributeDecoder) (h : ad.Next = (true, ad1)) :
    ad1.b.length < ad.b.length ∧ ad1.err = none := by
  unfold AttributeDecoder.Next at h
  split at h
  · simp at h
  · rename_i herr
    split at h
    · simp at h
    · rename_i hlen
      split at h
      · rename_i a hu
        simp only [Prod.mk.injEq, true_and] at h
        subst h
        have ha : 4 ≤ a.Length := by
          unfold Attribute.unmarshal at hu
          simp only [nlaHeaderLen] at hu
          split at hu
          · simp at hu
          · split at hu
            · simp at hu
            · split at hu
              · simp at hu
              · simp only [Result.ok.injEq] at hu
                subst hu
                simp only
                omega
        have hal := nlaAlign_ge a.Length
        refine ⟨?_, ?_⟩
        · simp only [List.length_drop]
          omega
        · simpa using herr
      · simp at h
      · simp at h

theorem parseCipher_ne_fault (t : Target) (b : List Byte) : parseCipher t b ≠ .fault := by
  unfold parseCipher CryptoReportCipher.overlay
  by_cases h : b.length = sizeofCryptoReportCipher
  · simp [h]
  · simp [h]

theorem parseHash_ne_fault (t : Target) (b : List Byte) : parseHash t b ≠ .fault := by
  unfold parseHash CryptoReportHash.overlay
  by_cases h : b.length = sizeofCryptoReportHash
  · simp [h]
  · simp [h]

theorem AttributeDecoder.Do_spec {σ : Type} (ad : AttributeDecoder) (fn : List Byte → Result σ)
    (s : σ) (herr : ad.err = none) (hf : fn ad.a.Data ≠ .fault) :
    ∃ e s1, ∀ b1, AttributeDecoder.Do { ad with b := b1 } fn s =
      some ({ ad with b := b1, err := e }, s1) := by
  unfold AttributeDecoder.Do
  simp only [herr, Option.isSome_none, Bool.false_eq_true, if_false]
  cases hfn : fn ad.a.Data with
  | ok s1 => exact ⟨none, s1, fun b1 => by simp [herr]⟩
  | error e => exact ⟨some e, s, fun b1 => rfl⟩
  | fault => exact absurd hfn hf

/-- The body of the loop always completes; it changes at most the deferred error
of the decoder, and what it does is independent of the bytes still to walk. -/
theorem parseAlgorithm.body_spec (t : Target) (ad : AttributeDecoder) (alg : Algorithm)
    (herr : ad.err = none) :
    ∃ e alg1, ∀ b1, parseAlgorithm.body t { ad with b := b1 } alg =
      some ({ ad with b := b1, err := e }, alg1) := by
  unfold parseAlgorithm.body
  simp only [AttributeDecoder.Type_]
  by_cases h1 : ad.a.Type_ = CRYPTOCFGA_PRIORITY_VAL
  · simp only [h1, if_true, AttributeDecoder.Uint32, herr, Option.isSome_none,
      Bool.false_eq_true, if_false, AttributeDecoder.Type_]
    by_cases h4 : ad.a.Data.length = 4
    · exact ⟨none, { alg with Priority := t.int (ad.ByteOrder.Uint32 ad.a.Data) },
        fun b1 => by simp [h4, herr]⟩
    · exact ⟨some (.notUint32 CRYPTOCFGA_PRIORITY_VAL ad.a.Data.length),
        { alg with Priority := t.int 0 }, fun b1 => by simp [h4]⟩
  · simp only [h1, if_false]
    by_cases h2 : ad.a.Type_ = CRYPTOCFGA_REPORT_CIPHER
    · simp only [h2, if_true]
      obtain ⟨e, s1, hd⟩ := AttributeDecoder.Do_spec ad (parseCipher t) alg.Type_ herr
        (parseCipher_ne_fault t _)
      exact ⟨e, { alg with Type_ := s1 }, fun b1 => by rw [hd b1]⟩
    · simp only [h2, if_false]
      by_cases h3 : ad.a.Type_ = CRYPTOCFGA_REPORT_HASH
      · simp only [h3, if_true]
        obtain ⟨e, s1, hd⟩ := AttributeDecoder.Do_spec ad (parseHash t) alg.Type_ herr
          (parseHash_ne_fault t _)
        exact ⟨e, { alg with Type_ := s1 }, fun b1 => by rw [hd b1]⟩
      · simp only [h3, if_false]
        exact ⟨none, alg, fun b1 => by simp [herr]⟩

theorem parseAlgorithm.body_unknown (t : Target) (ad : AttributeDecoder) (alg : Algorithm)
    (h1 : ad.a.Type_ ≠ CRYPTOCFGA_PRIORITY_VAL) (h2 : ad.a.Type_ ≠ CRYPTOCFGA_REPORT_CIPHER)
    (h3 : ad.a.Type_ ≠ CRYPTOCFGA_REPORT_HASH) :
    parseAlgorithm.body t ad alg = some (ad, alg) := by
  unfold parseAlgorithm.body
  simp only [AttributeDecoder.Type_, h1, h2, h3, if_false]

theorem parseAlgorithm.loop_err (t : Target) (n : Nat) (ad : AttributeDecoder) (alg : Algorithm)
    (e : Error) (herr : ad.err = some e) : parseAlgorithm.loop t n ad alg = some (ad, alg) := by
  cases n with
  | zero => rfl
  | succ k =>
    unfold parseAlgorithm.loop
    rw [AttributeDecoder.Next_err ad e herr]

/-- The loop uses at most one call of `Next` per byte left, and one more: any two
bounds above the number of bytes left give the same final state. -/
theorem parseAlgorithm.loop_fuel (t : Target) :
    ∀ (n m : Nat) (ad : AttributeDecoder) (alg : Algorithm),
      ad.b.length < n → ad.b.length < m →
      parseAlgorithm.loop t n ad alg = parseAlgorithm.loop t m ad alg := by
  intro n
  induction n with
  | zero =>
    intro m ad alg h
    omega
  | succ k ih =>
    intro m ad alg hn hm
    cases m with
    | zero => omega
    | succ j =>
      unfold parseAlgorithm.loop
      cases hnext : ad.Next with
      | mk ok ad1 =>
        cases ok with
        | false => rfl
        | true =>
          obtain ⟨hlt, herr1⟩ := AttributeDecoder.Next_true ad ad1 hnext
          obtain ⟨e, alg1, hbody⟩ := parseAlgorithm.body_spec t ad1 alg herr1
          have hb : parseAlgorithm.body t ad1 alg = some ({ ad1 with err := e }, alg1) :=
            hbody ad1.b
          simp only [hb]
          exact ih j _ _ (by simp only; omega) (by simp only; omega)

theorem AttributeDecoder.Next_attr (ad : AttributeDecoder) (x : Attribute) :
    (AttributeDecoder.Next { ad with a := x } = ad.Next ∧ ad.Next.1 = true) ∨
    (AttributeDecoder.Next { ad with a := x } = (false, { ad.Next.2 with a := x }) ∧
      ad.Next.1 = false ∧ ad.Next.2.a = ad.a) := by
  unfold AttributeDecoder.Next
  by_cases h1 : ad.err.isSome
  · simp [h1]
  · by_cases h2 : ad.b.length = 0
    · simp [h1, h2]
    · simp only [h1, h2, Bool.false_eq_true, if_false]
      cases hu : Attribute.unmarshal ad.ByteOrder ad.b with
      | ok a => simp
      | error e => simp
      | fault => simp

/-- The outcome of the loop does not depend on the attribute that is current
when the loop is entered. -/
theorem parseAlgorithm.loop_attr (t : Target) (n : Nat) (ad : AttributeDecoder) (x : Attribute)
    (alg : Algorithm) :
    parseAlgorithm.outcome (parseAlgorithm.loop t n { ad with a := x } alg) =
      parseAlgorithm.outcome (parseAlgorithm.loop t n ad alg) := by
  cases n with
  | zero => rfl
  | succ k =>
    unfold parseAlgorithm.loop
    rcases AttributeDecoder.Next_attr ad x with ⟨h, _⟩ | ⟨h, h1, _⟩
    · rw [h]
    · rw [h]
      cases hn : ad.Next with
      | mk ok ad1 =>
        rw [hn] at h1
        simp only at h1
        subst h1
        rfl

theorem parseAlgorithm_append (t : Target) (hdr s : List Byte)
    (hh : hdr.length = sizeofCryptoUserAlg) :
    parseAlgorithm t (hdr ++ s) =
      match parseAlgorithm.outcome (parseAlgorithm.loop t (s.length + 1)
          { ByteOrder := t.NativeEndian, a := { Length := 0, Type_ := 0, Data := [] }, b := s,
            err := none }
          { Name := nlencString (hdr.take 64)
            Driver := nlencString ((hdr.drop 64).take 64)
            Module := nlencString ((hdr.drop 128).take 64)
            Priority := 0
            Type_ := none }) with
      | none => .fault
      | some (some e, _) => .error e
      | some (none, a) => .ok a := by
  have hlen : (hdr ++ s).length = sizeofCryptoUserAlg + s.length := by
    rw [List.length_append, hh]
  have h1 : sliceFrom (hdr ++ s) sizeofCryptoUserAlg = some s := by
    unfold sliceFrom
    rw [if_pos (by omega), List.drop_left' hh]
  have h2 : sliceTo (hdr ++ s) sizeofCryptoUserAlg = some hdr := by
    unfold sliceTo
    rw [if_pos (by omega), List.take_left' hh]
  unfold parseAlgorithm
  rw [if_neg (by omega), h1, h2]
  simp only [NewAttributeDecoder, Option.some_bind, CryptoUserAlg.overlay, hh, lt_self_iff_false,
    if_false, Int8Arch.str_map_ofUint8, AttributeDecoder.Err]
  cases hl : parseAlgorithm.loop t (s.length + 1)
      { ByteOrder := t.NativeEndian, a := { Length := 0, Type_ := 0, Data := [] }, b := s,
        err := none }
      { Name := nlencString (hdr.take 64)
        Driver := nlencString ((hdr.drop 64).take 64)
        Module := nlencString ((hdr.drop 128).take 64)
        Priority := 0
        Type_ := none } with
  | none => rfl
  | some p =>
    obtain ⟨ad, a⟩ := p
    simp only [parseAlgorithm.outcome, Option.map_some']
    cases he : ad.err with
    | none => rfl
    | some e => rfl

/-! ## Lemmas: walking a stream of attributes -/

theorem parseAlgorithm.loop_succ_bytes (t : Target) (bo : ByteOrder) (k : Nat)
    (a0 : Attribute) (x : PaddedAttribute) (hx : x.WellFormed) (rest : List Byte)
    (alg : Algorithm) :
    parseAlgorithm.loop t (k + 1)
        { ByteOrder := bo, a := a0, b := x.bytes bo ++ rest, err := none } alg =
      match parseAlgorithm.body t { ByteOrder := bo, a := x.attr, b := rest, err := none }
          alg with
      | some (ad, a) => parseAlgorithm.loop t k ad a
      | none => none := by
  rw [parseAlgorithm.loop]
  rw [AttributeDecoder.Next_bytes _ x hx rest rfl rfl]

/-- Walking a prefix of well-formed attributes: when the loop is bound to end with
a deferred error on the bytes `tl`, it also does on the prefix followed by
`tl`. -/
theorem parseAlgorithm.loop_prefix_fails (t : Target) (bo : ByteOrder) (tl : List Byte)
    (htl : ∀ (k : Nat) (a0 : Attribute) (alg : Algorithm),
      ∃ ad1 alg1 e, parseAlgorithm.loop t (k + 1)
        { ByteOrder := bo, a := a0, b := tl, err := none } alg = some (ad1, alg1) ∧
        ad1.err = some e) :
    ∀ (pre : List PaddedAttribute), (∀ p ∈ pre, p.WellFormed) →
      ∀ (n : Nat) (a0 : Attribute) (alg : Algorithm), pre.length < n →
        ∃ ad1 alg1 e, parseAlgorithm.loop t n
          { ByteOrder := bo, a := a0, b := attributeStream bo pre ++ tl, err := none } alg =
            some (ad1, alg1) ∧ ad1.err = some e := by
  intro pre
  induction pre with
  | nil =>
    intro _ n a0 alg hn
    obtain ⟨k, rfl⟩ : ∃ k, n = k + 1 := ⟨n - 1, by simp only [List.length_nil] at hn; omega⟩
    simpa [attributeStream] using htl k a0 alg
  | cons x xs ih =>
    intro hwf n a0 alg hn
    have hx := hwf x (List.mem_cons_self x xs)
    have hxs : ∀ p ∈ xs, p.WellFormed := fun a ha => hwf a (List.mem_cons_of_mem x ha)
    obtain ⟨k, rfl⟩ : ∃ k, n = k + 1 := ⟨n - 1, by simp only [List.length_cons] at hn; omega⟩
    simp only [List.length_cons] at hn
    rw [attributeStream_cons, List.append_assoc,
      parseAlgorithm.loop_succ_bytes t bo k a0 x hx _ alg]
    obtain ⟨e, alg1, hbody⟩ := parseAlgorithm.body_spec t
      { ByteOrder := bo, a := x.attr, b := [], err := none } alg rfl
    rw [hbody (attributeStream bo xs ++ tl)]
    simp only
    cases e with
    | none => exact ih hxs k x.attr alg1 (by omega)
    | some e1 =>
      refine ⟨_, alg1, e1, parseAlgorithm.loop_err t k _ alg1 e1 rfl, rfl⟩

/-- Walking a prefix of well-formed attributes, with or without one more
attribute of a type the decoder does not know after the prefix: the outcome is
the same. -/
theorem parseAlgorithm.loop_insert (t : Target) (bo : ByteOrder) (x : PaddedAttribute)
    (hx : x.WellFormed) (h1 : x.attr.Type_ ≠ CRYPTOCFGA_PRIORITY_VAL)
    (h2 : x.attr.Type_ ≠ CRYPTOCFGA_REPORT_CIPHER)
    (h3 : x.attr.Type_ ≠ CRYPTOCFGA_REPORT_HASH) (rest : List Byte) :
    ∀ (pre : List PaddedAttribute), (∀ p ∈ pre, p.WellFormed) →
      ∀ (n m : Nat) (a1 a2 : Attribute) (alg : Algorithm),
        pre.length + 1 + rest.length < n → pre.length + rest.length < m →
        parseAlgorithm.outcome (parseAlgorithm.loop t n
          { ByteOrder := bo, a := a1, b := attributeStream bo pre ++ (x.bytes bo ++ rest),
            err := none } alg) =
        parseAlgorithm.outcome (parseAlgorithm.loop t m
          { ByteOrder := bo, a := a2, b := attributeStream bo pre ++ rest, err := none } alg) := by
  intro pre
  induction pre with
  | nil =>
    intro _ n m a1 a2 alg hn hm
    obtain ⟨k, rfl⟩ : ∃ k, n = k + 1 := ⟨n - 1, by omega⟩
    simp only [List.length_nil] at hn hm
    simp only [attributeStream, List.map_nil, List.flatten_nil, List.nil_append]
    rw [parseAlgorithm.loop_succ_bytes t bo k a1 x hx rest alg,
      parseAlgorithm.body_unknown t _ alg h1 h2 h3]
    simp only
    rw [parseAlgorithm.loop_fuel t k m _ alg (by simp only; omega) (by simp only; omega)]
    exact parseAlgorithm.loop_attr t m
      { ByteOrder := bo, a := a2, b := rest, err := none } x.attr alg
  | cons y ys ih =>
    intro hwf n m a1 a2 alg hn hm
    have hy := hwf y (List.mem_cons_self y ys)
    have hys : ∀ p ∈ ys, p.WellFormed := fun a ha => hwf a (List.mem_cons_of_mem y ha)
    simp only [List.length_cons] at hn hm
    obtain ⟨k, rfl⟩ : ∃ k, n = k + 1 := ⟨n - 1, by omega⟩
    obtain ⟨j, rfl⟩ : ∃ j, m = j + 1 := ⟨m - 1, by omega⟩
    rw [attributeStream_cons, List.append_assoc, List.append_assoc,
      parseAlgorithm.loop_succ_bytes t bo k a1 y hy _ alg,
      parseAlgorithm.loop_succ_bytes t bo j a2 y hy _ alg]
    obtain ⟨e, alg1, hbody⟩ := parseAlgorithm.body_spec t
      { ByteOrder := bo, a := y.attr, b := [], err := none } alg rfl
    rw [hbody (attributeStream bo ys ++ (x.bytes bo ++ rest)),
      hbody (attributeStream bo ys ++ rest)]
    simp only
    cases e with
    | none => exact ih hys k j y.attr y.attr alg1 (by omega) (by omega)
    | some e1 =>
      rw [parseAlgorithm.loop_err t k _ alg1 e1 rfl, parseAlgorithm.loop_err t j _ alg1 e1 rfl]
      rfl

/-! ## Lemmas: the enumeration client -/

theorem Conn.Algorithms.loop_ok (t : Target) :
    ∀ (msgs : List Message) (acc : List Algorithm),
      (∀ m ∈ msgs, ∃ a, parseAlgorithm t m.Data = .ok a) →
      ∃ rs, Conn.Algorithms.loop t msgs acc = .ok (acc ++ rs) ∧
        rs.map Result.ok = msgs.map (fun m => parseAlgorithm t m.Data) := by
  intro msgs
  induction msgs with
  | nil =>
    intro acc _
    exact ⟨[], by simp [Conn.Algorithms.loop], rfl⟩
  | cons m ms ih =>
    intro acc h
    obtain ⟨a, ha⟩ := h m (List.mem_cons_self m ms)
    obtain ⟨rs, h1, h2⟩ := ih (acc ++ [a]) (fun x hx => h x (List.mem_cons_of_mem m hx))
    refine ⟨a :: rs, ?_, ?_⟩
    · rw [Conn.Algorithms.loop, ha]
      simp only
      rw [h1, List.append_assoc, List.singleton_append]
    · simp only [List.map_cons, ha, h2]

theorem Conn.Algorithms.loop_error (t : Target) (m : Message) (post : List Message) (e : Error)
    (hm : parseAlgorithm t m.Data = .error e) :
    ∀ (pre : List Message) (acc : List Algorithm),
      (∀ x ∈ pre, ∃ a, parseAlgorithm t x.Data = .ok a) →
      Conn.Algorithms.loop t (pre ++ m :: post) acc = .error e := by
  intro pre
  induction pre with
  | nil =>
    intro acc _
    rw [List.nil_append, Conn.Algorithms.loop, hm]
  | cons x xs ih =>
    intro acc h
    obtain ⟨a, ha⟩ := h x (List.mem_cons_self x xs)
    rw [List.cons_append, Conn.Algorithms.loop, ha]
    exact ih (acc ++ [a]) (fun y hy => h y (List.mem_cons_of_mem x hy))

/-! ## The tests of the repository -/

set_option maxRecDepth 200000 in
/-- The three cases of `Test_parseAlgorithmError`: a one-byte buffer, and a header
followed by a cipher report resp. a hash report with the one-byte payload
`0xff`, each give an error. -/
theorem Test_parseAlgorithmError :
    parseAlgorithm Target.amd64 [0xff] = .error (.cryptoUserAlg 208 1) ∧
    parseAlgorithm Target.amd64 (encodeBad Target.amd64 CRYPTOCFGA_REPORT_CIPHER) =
      .error (.cryptoReportCipher 76 1) ∧
    parseAlgorithm Target.amd64 (encodeBad Target.amd64 CRYPTOCFGA_REPORT_HASH) =
      .error (.cryptoReportHash 72 1) := by
  refine ⟨?_, ?_, ?_⟩ <;> decide

set_option maxRecDepth 200000 in
/-- The test `TestConnAlgorithms`: the two responses come back as the two records,
in order, on a little-endian and on a big-endian target. -/
theorem TestConnAlgorithms :
    Conn.Algorithms Target.amd64 (testConn Target.amd64 [sha1Response, aesResponse]) =
      .ok [sha1Algorithm, aesAlgorithm] ∧
    Conn.Algorithms Target.s390x (testConn Target.s390x [sha1Response, aesResponse]) =
      .ok [sha1Algorithm, aesAlgorithm] ∧
    Conn.Algorithms Target.i386 (testConn Target.i386 [sha1Response, aesResponse]) =
      .ok [sha1Algorithm, aesAlgorithm] := by
  refine ⟨?_, ?_, ?_⟩ <;> decide

/-! ## Theorems -/

/-- C2: on a buffer shorter than `sizeofCryptoUserAlg` bytes, whatever its bytes,
`parseAlgorithm` returns an error (the one of the header check, with the wanted
and the actual length) and no record. -/
theorem C2_short_buffer_fails (t : Target) (b : List Byte)
    (h : b.length < sizeofCryptoUserAlg) :
    parseAlgorithm t b = .error (.cryptoUserAlg sizeofCryptoUserAlg b.length) := by
  unfold parseAlgorithm
  rw [if_pos h]

theorem C2_short_buffer_fails_witness :
    ([0xff] : List Byte).length < sizeofCryptoUserAlg ∧
    parseAlgorithm { NativeEndian := .LittleEndian, int64 := true } [0xff] =
      .error (.cryptoUserAlg 208 1) :=
  ⟨by decide, C2_short_buffer_fails _ _ (by decide)⟩

/-- C3: a message with a complete header whose attribute stream holds, after any
well-formed attributes and before any further bytes, a cipher report attribute
(resp. a hash report attribute) whose payload length differs from
`sizeofCryptoReportCipher` (resp. `sizeofCryptoReportHash`): `parseAlgorithm`
returns an error and no record. -/
theorem C3_report_length_mismatch_fails (t : Target) (hdr : List Byte)
    (pre : List PaddedAttribute) (bad : PaddedAttribute) (rest : List Byte)
    (hh : hdr.length = sizeofCryptoUserAlg) (hpre : ∀ p ∈ pre, p.WellFormed)
    (hbad : bad.WellFormed)
    (hty : (bad.attr.Type_ = CRYPTOCFGA_REPORT_CIPHER ∧
        bad.attr.Data.length ≠ sizeofCryptoReportCipher) ∨
      (bad.attr.Type_ = CRYPTOCFGA_REPORT_HASH ∧
        bad.attr.Data.length ≠ sizeofCryptoReportHash)) :
    ∃ e, parseAlgorithm t
      (hdr ++ attributeStream t.NativeEndian pre ++ bad.bytes t.NativeEndian ++ rest) =
        .error e := by
  have hs := attributeStream_length_ge t.NativeEndian pre hpre
  have htl : ∀ (k : Nat) (a0 : Attribute) (alg : Algorithm),
      ∃ ad1 alg1 e, parseAlgorithm.loop t (k + 1)
        { ByteOrder := t.NativeEndian, a := a0, b := bad.bytes t.NativeEndian ++ rest,
          err := none } alg = some (ad1, alg1) ∧ ad1.err = some e := by
    intro k a0 alg
    rw [parseAlgorithm.loop_succ_bytes t t.NativeEndian k a0 bad hbad rest alg]
    rcases hty with ⟨h1, h2⟩ | ⟨h1, h2⟩
    · refine ⟨
        { ByteOrder := t.NativeEndian, a := bad.attr, b := rest,
          err := some (.cryptoReportCipher sizeofCryptoReportCipher bad.attr.Data.length) }, alg,
        .cryptoReportCipher sizeofCryptoReportCipher bad.attr.Data.length, ?_, rfl⟩
      rw [← parseAlgorithm.loop_err t k
        { ByteOrder := t.NativeEndian, a := bad.attr, b := rest,
          err := some (.cryptoReportCipher sizeofCryptoReportCipher bad.attr.Data.length) } alg _ rfl]
      simp [parseAlgorithm.body, AttributeDecoder.Type_, AttributeDecoder.Do, parseCipher, h1,
        h2, CRYPTOCFGA_REPORT_CIPHER, CRYPTOCFGA_PRIORITY_VAL]
    · refine ⟨
        { ByteOrder := t.NativeEndian, a := bad.attr, b := rest,
          err := some (.cryptoReportHash sizeofCryptoReportHash bad.attr.Data.length) }, alg,
        .cryptoReportHash sizeofCryptoReportHash bad.attr.Data.length, ?_, rfl⟩
      rw [← parseAlgorithm.loop_err t k
        { ByteOrder := t.NativeEndian, a := bad.attr, b := rest,
          err := some (.cryptoReportHash sizeofCryptoReportHash bad.attr.Data.length) } alg _ rfl]
      simp [parseAlgorithm.body, AttributeDecoder.Type_, AttributeDecoder.Do, parseHash, h1,
        h2, CRYPTOCFGA_REPORT_HASH, CRYPTOCFGA_REPORT_CIPHER, CRYPTOCFGA_PRIORITY_VAL]
  rw [List.append_assoc, List.append_assoc, parseAlgorithm_append t hdr _ hh]
  obtain ⟨ad1, alg1, e, hl, he⟩ := parseAlgorithm.loop_prefix_fails t t.NativeEndian
    (bad.bytes t.NativeEndian ++ rest) htl pre hpre
    ((attributeStream t.NativeEndian pre ++ (bad.bytes t.NativeEndian ++ rest)).length + 1)
    { Length := 0, Type_ := 0, Data := [] }
    { Name := nlencString (hdr.take 64)
      Driver := nlencString ((hdr.drop 64).take 64)
      Module := nlencString ((hdr.drop 128).take 64)
      Priority := 0
      Type_ := none }
    (by rw [List.length_append]; omega)
  rw [hl]
  exact ⟨e, by simp [parseAlgorithm.outcome, he]⟩

set_option maxRecDepth 100000 in
theorem C3_report_length_mismatch_fails_witness :
    zeroHeader.length = sizeofCryptoUserAlg ∧
    (∀ p ∈ [samplePriority], p.WellFormed) ∧
    PaddedAttribute.WellFormed (sampleAttribute 8) ∧
    (sampleAttribute 8).attr.Type_ = CRYPTOCFGA_REPORT_CIPHER ∧
    (sampleAttribute 8).attr.Data.length ≠ sizeofCryptoReportCipher ∧
    ∃ e, parseAlgorithm Target.amd64
      (zeroHeader ++ attributeStream Target.amd64.NativeEndian [samplePriority] ++
        (sampleAttribute 8).bytes Target.amd64.NativeEndian ++ [8, 0, 1, 0]) = .error e :=
  ⟨by decide, by decide, by decide, by decide, by decide,
    C3_report_length_mismatch_fails Target.amd64 zeroHeader [samplePriority]
      (sampleAttribute 8) [8, 0, 1, 0] (by decide) (by decide) (by decide)
      (Or.inl ⟨by decide, by decide⟩)⟩

/-- An attribute of a type the decoder does not know, placed after any well-formed
attributes of the stream, changes nothing to what `parseAlgorithm` returns,
whether a record, an error or a fault. -/
theorem parseAlgorithm_insert (t : Target) (hdr : List Byte) (pre : List PaddedAttribute)
    (x : PaddedAttribute) (rest : List Byte)
    (hh : hdr.length = sizeofCryptoUserAlg) (hpre : ∀ p ∈ pre, p.WellFormed)
    (hx : x.WellFormed) (h1 : x.attr.Type_ ≠ CRYPTOCFGA_PRIORITY_VAL)
    (h2 : x.attr.Type_ ≠ CRYPTOCFGA_REPORT_CIPHER)
    (h3 : x.attr.Type_ ≠ CRYPTOCFGA_REPORT_HASH) :
    parseAlgorithm t
        (hdr ++ attributeStream t.NativeEndian pre ++ x.bytes t.NativeEndian ++ rest) =
      parseAlgorithm t (hdr ++ attributeStream t.NativeEndian pre ++ rest) := by
  have hs := attributeStream_length_ge t.NativeEndian pre hpre
  have hxl := PaddedAttribute.bytes_length_pos t.NativeEndian x hx
  rw [List.append_assoc, List.append_assoc, List.append_assoc,
    parseAlgorithm_append t hdr _ hh, parseAlgorithm_append t hdr _ hh]
  rw [parseAlgorithm.loop_insert t t.NativeEndian x hx h1 h2 h3 rest pre hpre
    ((attributeStream t.NativeEndian pre ++ (x.bytes t.NativeEndian ++ rest)).length + 1)
    ((attributeStream t.NativeEndian pre ++ rest).length + 1)
    { Length := 0, Type_ := 0, Data := [] } { Length := 0, Type_ := 0, Data := [] } _
    (by simp only [List.length_append]; omega) (by simp only [List.length_append]; omega)]

/-- C4: unknown tags are ignored. For a message with a complete header on which
`parseAlgorithm` returns the record `r`, and a well-formed attribute `x` whose
type is none of priority, cipher report and hash report, with any payload:
the message with `x` inserted at a position of the attribute stream (after any
number `pre` of its attributes, before the bytes `rest` that follow) also
decodes, to the same record `r`. -/
theorem C4_unknown_tag_ignored (t : Target) (hdr : List Byte) (pre : List PaddedAttribute)
    (x : PaddedAttribute) (rest : List Byte) (r : Algorithm)
    (hh : hdr.length = sizeofCryptoUserAlg) (hpre : ∀ p ∈ pre, p.WellFormed)
    (hx : x.WellFormed) (h1 : x.attr.Type_ ≠ CRYPTOCFGA_PRIORITY_VAL)
    (h2 : x.attr.Type_ ≠ CRYPTOCFGA_REPORT_CIPHER)
    (h3 : x.attr.Type_ ≠ CRYPTOCFGA_REPORT_HASH)
    (hm : parseAlgorithm t (hdr ++ attributeStream t.NativeEndian pre ++ rest) = .ok r) :
    parseAlgorithm t
      (hdr ++ attributeStream t.NativeEndian pre ++ x.bytes t.NativeEndian ++ rest) = .ok r := by
  rw [parseAlgorithm_insert t hdr pre x rest hh hpre hx h1 h2 h3]
  exact hm

set_option maxRecDepth 100000 in
theorem C4_unknown_tag_ignored_witness :
    zeroHeader.length = sizeofCryptoUserAlg ∧
    (∀ p ∈ [samplePriority], p.WellFormed) ∧
    PaddedAttribute.WellFormed (sampleAttribute 2) ∧
    (sampleAttribute 2).attr.Type_ ≠ CRYPTOCFGA_PRIORITY_VAL ∧
    (sampleAttribute 2).attr.Type_ ≠ CRYPTOCFGA_REPORT_CIPHER ∧
    (sampleAttribute 2).attr.Type_ ≠ CRYPTOCFGA_REPORT_HASH ∧
    parseAlgorithm Target.amd64
      (zeroHeader ++ attributeStream Target.amd64.NativeEndian [samplePriority] ++
        [8, 0, 1, 0, 7, 0, 0, 0]) =
      .ok { emptyAlgorithm with Priority := 7 } ∧
    parseAlgorithm Target.amd64
      (zeroHeader ++ attributeStream Target.amd64.NativeEndian [samplePriority] ++
        (sampleAttribute 2).bytes Target.amd64.NativeEndian ++ [8, 0, 1, 0, 7, 0, 0, 0]) =
      .ok { emptyAlgorithm with Priority := 7 } :=
  ⟨by decide, by decide, by decide, by decide, by decide, by decide, by decide,
    C4_unknown_tag_ignored Target.amd64 zeroHeader [samplePriority] (sampleAttribute 2)
      [8, 0, 1, 0, 7, 0, 0, 0] { emptyAlgorithm with Priority := 7 }
      (by decide) (by decide) (by decide) (by decide) (by decide) (by decide) (by decide)⟩

/-- C10: a message with a complete header whose attribute stream holds, after any
well-formed attributes, an attribute declaring a length larger than the number
of bytes left in the buffer: `parseAlgorithm` returns an error and no record,
so that a truncated final attribute is not dropped in silence. -/
theorem C10_truncated_attribute_fails (t : Target) (hdr : List Byte)
    (pre : List PaddedAttribute) (tl : List Byte)
    (hh : hdr.length = sizeofCryptoUserAlg) (hpre : ∀ p ∈ pre, p.WellFormed)
    (h2 : 2 ≤ tl.length) (hlen : tl.length < t.NativeEndian.Uint16 tl) :
    ∃ e, parseAlgorithm t (hdr ++ attributeStream t.NativeEndian pre ++ tl) = .error e := by
  have hs := attributeStream_length_ge t.NativeEndian pre hpre
  have htl : ∀ (k : Nat) (a0 : Attribute) (alg : Algorithm),
      ∃ ad1 alg1 e, parseAlgorithm.loop t (k + 1)
        { ByteOrder := t.NativeEndian, a := a0, b := tl, err := none } alg = some (ad1, alg1) ∧
        ad1.err = some e := by
    intro k a0 alg
    refine ⟨{ ByteOrder := t.NativeEndian, a := a0, b := tl, err := some .invalidAttribute },
      alg, .invalidAttribute, ?_, rfl⟩
    have h0 : tl.length ≠ 0 := by omega
    rw [parseAlgorithm.loop]
    by_cases h4 : tl.length < 4
    · simp [AttributeDecoder.Next, Attribute.unmarshal, nlaHeaderLen, h0, h4]
    · simp [AttributeDecoder.Next, Attribute.unmarshal, nlaHeaderLen, h0, h4, hlen]
  rw [List.append_assoc, parseAlgorithm_append t hdr _ hh]
  obtain ⟨ad1, alg1, e, hl, he⟩ := parseAlgorithm.loop_prefix_fails t t.NativeEndian tl htl pre
    hpre ((attributeStream t.NativeEndian pre ++ tl).length + 1)
    { Length := 0, Type_ := 0, Data := [] }
    { Name := nlencString (hdr.take 64)
      Driver := nlencString ((hdr.drop 64).take 64)
      Module := nlencString ((hdr.drop 128).take 64)
      Priority := 0
      Type_ := none }
    (by rw [List.length_append]; omega)
  rw [hl]
  exact ⟨e, by simp [parseAlgorithm.outcome, he]⟩

set_option maxRecDepth 100000 in
theorem C10_truncated_attribute_fails_witness :
    zeroHeader.length = sizeofCryptoUserAlg ∧
    (∀ p ∈ [samplePriority], p.WellFormed) ∧
    2 ≤ ([8, 0, 1, 0, 44, 1] : List Byte).length ∧
    ([8, 0, 1, 0, 44, 1] : List Byte).length <
      Target.amd64.NativeEndian.Uint16 [8, 0, 1, 0, 44, 1] ∧
    ∃ e, parseAlgorithm Target.amd64
      (zeroHeader ++ attributeStream Target.amd64.NativeEndian [samplePriority] ++
        [8, 0, 1, 0, 44, 1]) = .error e :=
  ⟨by decide, by decide, by decide, by decide,
    C10_truncated_attribute_fails Target.amd64 zeroHeader [samplePriority] [8, 0, 1, 0, 44, 1]
      (by decide) (by decide) (by decide) (by decide)⟩

/-- C5: for every array `a` (of `int8` for `str_int8.go`, of `uint8` for
`str_uint8.go`), `str a` is the bytes of `a` up to, not including, the first
zero byte: the bytes of `a` are `str a` followed by a rest that is empty or
starts with a zero byte, and `str a` holds no zero byte. It is all of `a` when
`a` holds no zero byte, and it is never longer than `a`. -/
theorem C5_str_up_to_first_zero (a : List Int8) (u : List Byte) :
    ((∃ rest, a.map Int8.toUint8 = Int8Arch.str a ++ rest ∧
        (rest = [] ∨ ∃ tl, rest = 0 :: tl)) ∧
      (0 : Byte) ∉ Int8Arch.str a ∧
      ((0 : Byte) ∈ a.map Int8.toUint8 ∨ Int8Arch.str a = a.map Int8.toUint8) ∧
      (Int8Arch.str a).length ≤ a.length) ∧
    ((∃ rest, u = Uint8Arch.str u ++ rest ∧ (rest = [] ∨ ∃ tl, rest = 0 :: tl)) ∧
      (0 : Byte) ∉ Uint8Arch.str u ∧
      ((0 : Byte) ∈ u ∨ Uint8Arch.str u = u) ∧
      (Uint8Arch.str u).length ≤ u.length) := by
  refine ⟨⟨nlencString_split _, nlencString_not_mem_zero _, ?_, ?_⟩,
    ⟨nlencString_split _, nlencString_not_mem_zero _, ?_, nlencString_length_le _⟩⟩
  · by_cases h : (0 : Byte) ∈ a.map Int8.toUint8
    · exact Or.inl h
    · exact Or.inr (nlencString_of_not_mem _ h)
  · have h := nlencString_length_le (a.map Int8.toUint8)
    rw [List.length_map] at h
    exact h
  · by_cases h : (0 : Byte) ∈ u
    · exact Or.inl h
    · exact Or.inr (nlencString_of_not_mem _ h)

/-- C6, as stated, fails: the two-byte string made of the letter a and a zero
byte is shorter than 64 bytes, and `str (pack s)` is the one-byte string made
of the letter a. -/
theorem C6_str_pack_counterexample :
    ¬ ∀ s : GoString, s.length < 64 → Int8Arch.str (Int8Arch.pack s) = s := by
  intro h
  exact absurd (h [0x61, 0] (by decide)) (by decide)

/-- C6, amended: for every string `s` shorter than 64 bytes that holds no zero
byte, `str (pack s) = s`, with the functions of `str_int8.go` and with those
of `str_uint8.go`. -/
theorem C6_str_pack_roundtrip (s : GoString) (hlen : s.length < 64) (h0 : (0 : Byte) ∉ s) :
    Int8Arch.str (Int8Arch.pack s) = s ∧ Uint8Arch.str (Uint8Arch.pack s) = s :=
  ⟨Int8Arch.str_pack s (by omega) h0, nlencString_of_not_mem s h0⟩

theorem C6_str_pack_roundtrip_witness :
    sha1Name.length < 64 ∧ (0 : Byte) ∉ sha1Name ∧
    Int8Arch.str (Int8Arch.pack sha1Name) = sha1Name ∧
    Uint8Arch.str (Uint8Arch.pack sha1Name) = sha1Name :=
  ⟨by decide, by decide, C6_str_pack_roundtrip sha1Name (by decide) (by decide)⟩

/-- The `pack` of `str_int8.go` does what C7 says: 64 elements, the first
`min (len s) 64` bytes of `s` in order, then zero bytes. -/
theorem Int8Arch.pack_spec (s : GoString) :
    (Int8Arch.pack s).length = 64 ∧
    (Int8Arch.pack s).map Int8.toUint8 =
      s.take (min s.length 64) ++ List.replicate (64 - min s.length 64) 0 := by
  refine ⟨Int8Arch.pack_length s, ?_⟩
  rw [Int8Arch.map_toUint8_pack]
  by_cases h : s.length ≤ 64
  · rw [Nat.min_eq_left h, List.take_of_length_le h, List.take_of_length_le (Nat.le_refl _)]
  · have h1 : 64 ≤ s.length := by omega
    rw [Nat.min_eq_right h1]
    have h2 : 64 - s.length = 0 := by omega
    rw [h2]

/-- C7 at the string "sha1": the `pack` of `str_uint8.go` returns the 4 bytes of
the string, not a 64-element array filled up with zero bytes, where the `pack`
of `str_int8.go` returns the 4 bytes followed by 60 zero bytes. -/
theorem C7_pack_uint8_not_zero_filled :
    Uint8Arch.pack sha1Name = sha1Name ∧
    (Uint8Arch.pack sha1Name).length = 4 ∧
    (Int8Arch.pack sha1Name).map Int8.toUint8 = sha1Name ++ List.replicate 60 0 := by
  decide

/-- C8: when the transport returns the messages `msgs` and `parseAlgorithm`
returns a record for each of them, `Conn.Algorithms` returns no error and a
list of as many records, of which the `i`-th is what `parseAlgorithm` returns
for the `i`-th message. -/
theorem C8_algorithms_in_order (t : Target) (c : Conn) (msgs : List Message)
    (hex : c.Execute = .ok msgs)
    (hok : ∀ m ∈ msgs, ∃ a, parseAlgorithm t m.Data = .ok a) :
    ∃ algs, Conn.Algorithms t c = .ok algs ∧ algs.length = msgs.length ∧
      ∀ i : Nat, (algs[i]?).map Result.ok = (msgs[i]?).map (fun (m : Message) => parseAlgorithm t m.Data) := by
  obtain ⟨rs, h1, h2⟩ := Conn.Algorithms.loop_ok t msgs [] hok
  refine ⟨rs, ?_, ?_, ?_⟩
  · rw [Conn.Algorithms, hex]
    simpa using h1
  · have h := congrArg List.length h2
    simpa using h
  · intro i
    have h := congrArg (fun l => l[i]?) h2
    simpa using h

set_option maxRecDepth 100000 in
theorem C8_algorithms_in_order_witness :
    (∀ m ∈ [({ Data := zeroHeader } : Message), { Data := zeroHeader ++ [8, 0, 1, 0, 44, 1, 0, 0] }],
      ∃ a, parseAlgorithm Target.amd64 m.Data = .ok a) ∧
    ∃ algs, Conn.Algorithms Target.amd64
        { Execute := .ok [{ Data := zeroHeader }, { Data := zeroHeader ++ [8, 0, 1, 0, 44, 1, 0, 0] }] } =
        .ok algs ∧
      algs.length =
        [({ Data := zeroHeader } : Message), { Data := zeroHeader ++ [8, 0, 1, 0, 44, 1, 0, 0] }].length ∧
      ∀ i : Nat, (algs[i]?).map Result.ok =
        ([({ Data := zeroHeader } : Message),
          { Data := zeroHeader ++ [8, 0, 1, 0, 44, 1, 0, 0] }][i]?).map
          (fun (m : Message) => parseAlgorithm Target.amd64 m.Data) :=
  have hok : ∀ m ∈ [({ Data := zeroHeader } : Message),
      { Data := zeroHeader ++ [8, 0, 1, 0, 44, 1, 0, 0] }],
      ∃ a, parseAlgorithm Target.amd64 m.Data = .ok a := by
    intro m hm
    simp only [List.mem_cons, List.mem_singleton, List.not_mem_nil, or_false] at hm
    rcases hm with rfl | rfl
    · exact ⟨emptyAlgorithm, by decide⟩
    · exact ⟨{ emptyAlgorithm with Priority := 300 }, by decide⟩
  ⟨hok, C8_algorithms_in_order Target.amd64 _ _ rfl hok⟩

/-- C9: when the transport returns messages of which one does not decode,
`Conn.Algorithms` returns the error of the first such message in list order
(`m`, which the messages `pre` that decode come before), and no record. -/
theorem C9_algorithms_first_error (t : Target) (c : Conn) (pre : List Message) (m : Message)
    (post : List Message) (e : Error)
    (hex : c.Execute = .ok (pre ++ m :: post))
    (hpre : ∀ x ∈ pre, ∃ a, parseAlgorithm t x.Data = .ok a)
    (hm : parseAlgorithm t m.Data = .error e) :
    Conn.Algorithms t c = .error e := by
  rw [Conn.Algorithms, hex]
  exact Conn.Algorithms.loop_error t m post e hm pre [] hpre

set_option maxRecDepth 100000 in
theorem C9_algorithms_first_error_witness :
    (∀ x ∈ [({ Data := zeroHeader } : Message)],
      ∃ a, parseAlgorithm Target.amd64 x.Data = .ok a) ∧
    parseAlgorithm Target.amd64 (Message.mk [0xff]).Data = .error (.cryptoUserAlg 208 1) ∧
    Conn.Algorithms Target.amd64
      { Execute := .ok ([{ Data := zeroHeader }] ++ { Data := [0xff] } :: [{ Data := zeroHeader }]) } =
      .error (.cryptoUserAlg 208 1) :=
  have hpre : ∀ x ∈ [({ Data := zeroHeader } : Message)],
      ∃ a, parseAlgorithm Target.amd64 x.Data = .ok a := by
    intro x hx
    simp only [List.mem_singleton] at hx
    subst hx
    exact ⟨emptyAlgorithm, by decide⟩
  ⟨hpre, by decide,
    C9_algorithms_first_error Target.amd64 _ [{ Data := zeroHeader }] { Data := [0xff] }
      [{ Data := zeroHeader }] (.cryptoUserAlg 208 1) rfl hpre (by decide)⟩

/-! ## Lemmas: the test encoder -/

theorem Target.int_of_intHolds (t : Target) (v : Nat) (h : t.intHolds v) :
    t.int v = (v : Int) := by
  obtain ⟨h1, h2⟩ := h
  unfold Target.int
  by_cases h64 : t.int64 = true
  · rw [if_pos h64]
  · have h3 : v < 2147483648 := by
      rcases h2 with h2 | h2
      · exact absurd h2 h64
      · exact h2
    rw [if_neg h64, Nat.mod_eq_of_lt h1, if_pos h3]

theorem ByteOrder.Uint32_PutUint32_nil (bo : ByteOrder) (v : Nat) (h : v < 4294967296) :
    bo.Uint32 (bo.PutUint32 v) = v := by
  have h1 := ByteOrder.Uint32_PutUint32 bo v [] h
  rw [List.append_nil] at h1
  exact h1

theorem fields_of_append (X Y Z R : List Byte) (hX : X.length = 64) (hY : Y.length = 64)
    (hZ : Z.length = 64) :
    (X ++ Y ++ Z ++ R).take 64 = X ∧ ((X ++ Y ++ Z ++ R).drop 64).take 64 = Y ∧
      ((X ++ Y ++ Z ++ R).drop 128).take 64 = Z := by
  have hXY : (X ++ Y).length = 128 := by
    rw [List.length_append, hX, hY]
  refine ⟨?_, ?_, ?_⟩
  · rw [List.append_assoc, List.append_assoc, List.take_left' hX]
  · rw [List.append_assoc, List.append_assoc, List.drop_left' hX, List.take_left' hY]
  · rw [List.append_assoc (X ++ Y), List.drop_left' hXY, List.take_left' hZ]

theorem nlencString_pack (s : GoString) (h : fitsField s) :
    nlencString ((Int8Arch.pack s).map Int8.toUint8) = s :=
  Int8Arch.str_pack s h.1 h.2

theorem Int8Arch.map_pack_length (s : GoString) :
    ((Int8Arch.pack s).map Int8.toUint8).length = 64 := by
  rw [List.length_map, Int8Arch.pack_length]

theorem parseCipher_bytes (t : Target) (label : GoString) (blocksize minKeysize maxKeysize : Nat)
    (hl : fitsField label) (h1 : blocksize < 4294967296) (h2 : minKeysize < 4294967296)
    (h3 : maxKeysize < 4294967296) :
    parseCipher t (CryptoReportCipher.bytes t
        { Type_ := Int8Arch.pack label, Blocksize := blocksize, Min_keysize := minKeysize,
          Max_keysize := maxKeysize }) =
      .ok (some (.Cipher
        { BlockSize := t.int blocksize, MinKeySize := t.int minKeysize,
          MaxKeySize := t.int maxKeysize, typer := label })) := by
  have hT := Int8Arch.map_pack_length label
  have hlen : (CryptoReportCipher.bytes t
      { Type_ := Int8Arch.pack label, Blocksize := blocksize, Min_keysize := minKeysize,
        Max_keysize := maxKeysize }).length = sizeofCryptoReportCipher := by
    simp only [CryptoReportCipher.bytes, List.length_append, hT, ByteOrder.PutUint32_length,
      sizeofCryptoReportCipher]
  have hT68 : ((Int8Arch.pack label).map Int8.toUint8 ++
      t.NativeEndian.PutUint32 blocksize).length = 68 := by
    rw [List.length_append, hT, ByteOrder.PutUint32_length]
  have hT72 : ((Int8Arch.pack label).map Int8.toUint8 ++
      t.NativeEndian.PutUint32 blocksize ++ t.NativeEndian.PutUint32 minKeysize).length = 72 := by
    rw [List.length_append, hT68, ByteOrder.PutUint32_length]
  unfold parseCipher CryptoReportCipher.overlay
  rw [hlen]
  simp only [ne_eq, not_true_eq_false, if_false, lt_self_iff_false, Int8Arch.str_map_ofUint8]
  simp only [CryptoReportCipher.bytes]
  have e1 : ((Int8Arch.pack label).map Int8.toUint8 ++ t.NativeEndian.PutUint32 blocksize ++
      t.NativeEndian.PutUint32 minKeysize ++ t.NativeEndian.PutUint32 maxKeysize).take 64 =
      (Int8Arch.pack label).map Int8.toUint8 := by
    rw [List.append_assoc, List.append_assoc, List.take_left' hT]
  have e2 : ((Int8Arch.pack label).map Int8.toUint8 ++ t.NativeEndian.PutUint32 blocksize ++
      t.NativeEndian.PutUint32 minKeysize ++ t.NativeEndian.PutUint32 maxKeysize).drop 64 =
      t.NativeEndian.PutUint32 blocksize ++
        (t.NativeEndian.PutUint32 minKeysize ++ t.NativeEndian.PutUint32 maxKeysize) := by
    rw [List.append_assoc, List.append_assoc, List.drop_left' hT]
  have e3 : ((Int8Arch.pack label).map Int8.toUint8 ++ t.NativeEndian.PutUint32 blocksize ++
      t.NativeEndian.PutUint32 minKeysize ++ t.NativeEndian.PutUint32 maxKeysize).drop 68 =
      t.NativeEndian.PutUint32 minKeysize ++ t.NativeEndian.PutUint32 maxKeysize := by
    rw [List.append_assoc, List.drop_left' hT68]
  have e4 : ((Int8Arch.pack label).map Int8.toUint8 ++ t.NativeEndian.PutUint32 blocksize ++
      t.NativeEndian.PutUint32 minKeysize ++ t.NativeEndian.PutUint32 maxKeysize).drop 72 =
      t.NativeEndian.PutUint32 maxKeysize := by
    rw [List.drop_left' hT72]
  rw [e1, e2, e3, e4, nlencString_pack label hl, ByteOrder.Uint32_PutUint32 _ _ _ h1,
    ByteOrder.Uint32_PutUint32 _ _ _ h2, ByteOrder.Uint32_PutUint32_nil _ _ h3]

theorem parseHash_bytes (t : Target) (label : GoString) (blocksize digestsize : Nat)
    (hl : fitsField label) (h1 : blocksize < 4294967296) (h2 : digestsize < 4294967296) :
    parseHash t (CryptoReportHash.bytes t
        { Type_ := Int8Arch.pack label, Blocksize := blocksize, Digestsize := digestsize }) =
      .ok (some (.Hash
        { BlockSize := t.int blocksize, DigestSize := t.int digestsize, typer := label })) := by
  have hT := Int8Arch.map_pack_length label
  have hlen : (CryptoReportHash.bytes t
      { Type_ := Int8Arch.pack label, Blocksize := blocksize,
        Digestsize := digestsize }).length = sizeofCryptoReportHash := by
    simp only [CryptoReportHash.bytes, List.length_append, hT, ByteOrder.PutUint32_length,
      sizeofCryptoReportHash]
  have hT68 : ((Int8Arch.pack label).map Int8.toUint8 ++
      t.NativeEndian.PutUint32 blocksize).length = 68 := by
    rw [List.length_append, hT, ByteOrder.PutUint32_length]
  unfold parseHash CryptoReportHash.overlay
  rw [hlen]
  simp only [ne_eq, not_true_eq_false, if_false, lt_self_iff_false, Int8Arch.str_map_ofUint8]
  simp only [CryptoReportHash.bytes]
  have e1 : ((Int8Arch.pack label).map Int8.toUint8 ++ t.NativeEndian.PutUint32 blocksize ++
      t.NativeEndian.PutUint32 digestsize).take 64 = (Int8Arch.pack label).map Int8.toUint8 := by
    rw [List.append_assoc, List.take_left' hT]
  have e2 : ((Int8Arch.pack label).map Int8.toUint8 ++ t.NativeEndian.PutUint32 blocksize ++
      t.NativeEndian.PutUint32 digestsize).drop 64 =
      t.NativeEndian.PutUint32 blocksize ++ t.NativeEndian.PutUint32 digestsize := by
    rw [List.append_assoc, List.drop_left' hT]
  have e3 : ((Int8Arch.pack label).map Int8.toUint8 ++ t.NativeEndian.PutUint32 blocksize ++
      t.NativeEndian.PutUint32 digestsize).drop 68 = t.NativeEndian.PutUint32 digestsize := by
    rw [List.drop_left' hT68]
  rw [e1, e2, e3, nlencString_pack label hl, ByteOrder.Uint32_PutUint32 _ _ _ h1,
    ByteOrder.Uint32_PutUint32_nil _ _ h2]

theorem parseAlgorithm.body_priority (t : Target) (ad : AttributeDecoder) (alg : Algorithm)
    (herr : ad.err = none) (hty : ad.a.Type_ = CRYPTOCFGA_PRIORITY_VAL)
    (hlen : ad.a.Data.length = 4) :
    parseAlgorithm.body t ad alg =
      some (ad, { alg with Priority := t.int (ad.ByteOrder.Uint32 ad.a.Data) }) := by
  unfold parseAlgorithm.body
  simp [AttributeDecoder.Type_, AttributeDecoder.Uint32, herr, hty, hlen]

theorem parseAlgorithm.body_cipher (t : Target) (ad : AttributeDecoder) (alg : Algorithm)
    (ty : Option AlgorithmType) (herr : ad.err = none)
    (hty : ad.a.Type_ = CRYPTOCFGA_REPORT_CIPHER) (hp : parseCipher t ad.a.Data = .ok ty) :
    parseAlgorithm.body t ad alg = some (ad, { alg with Type_ := ty }) := by
  unfold parseAlgorithm.body
  simp [AttributeDecoder.Type_, AttributeDecoder.Do, herr, hty, hp, CRYPTOCFGA_REPORT_CIPHER,
    CRYPTOCFGA_PRIORITY_VAL]

theorem parseAlgorithm.body_hash (t : Target) (ad : AttributeDecoder) (alg : Algorithm)
    (ty : Option AlgorithmType) (herr : ad.err = none)
    (hty : ad.a.Type_ = CRYPTOCFGA_REPORT_HASH) (hp : parseHash t ad.a.Data = .ok ty) :
    parseAlgorithm.body t ad alg = some (ad, { alg with Type_ := ty }) := by
  unfold parseAlgorithm.body
  simp [AttributeDecoder.Type_, AttributeDecoder.Do, herr, hty, hp, CRYPTOCFGA_REPORT_HASH,
    CRYPTOCFGA_REPORT_CIPHER, CRYPTOCFGA_PRIORITY_VAL]

theorem parseAlgorithm.loop_nil (t : Target) (n : Nat) (ad : AttributeDecoder) (alg : Algorithm)
    (hb : ad.b = []) : parseAlgorithm.loop t n ad alg = some (ad, alg) := by
  cases n with
  | zero => rfl
  | succ k =>
    have hn : ad.Next = (false, ad) := by
      unfold AttributeDecoder.Next
      by_cases h1 : ad.err.isSome
      · simp [h1]
      · simp [h1, hb]
    rw [parseAlgorithm.loop, hn]

/-- Decoding a header with packed names followed by a priority attribute and one
more attribute, of which `hbody` says what the body of the loop does with it. -/
theorem parseAlgorithm_encoded (t : Target) (ualg : CryptoUserAlg)
    (name driver module : GoString) (priority typ : Nat) (data : List Byte)
    (ty : Option AlgorithmType)
    (hn : fitsField name) (hd : fitsField driver) (hm : fitsField module)
    (hp : priority < 4294967296) (htyp : typ < 65536) (hdata : 4 + data.length < 65536)
    (hbody : ∀ alg : Algorithm, parseAlgorithm.body t
        { ByteOrder := t.NativeEndian,
          a := { Length := nlaHeaderLen + data.length, Type_ := typ, Data := data },
          b := [], err := none } alg =
      some ({ ByteOrder := t.NativeEndian,
              a := { Length := nlaHeaderLen + data.length, Type_ := typ, Data := data },
              b := [], err := none }, { alg with Type_ := ty })) :
    parseAlgorithm t
        (CryptoUserAlg.bytes t
            { ualg with
              Name := Int8Arch.pack name
              Driver_name := Int8Arch.pack driver
              Module_name := Int8Arch.pack module } ++
          (((NewAttributeEncoder t).Uint32 CRYPTOCFGA_PRIORITY_VAL priority).Do typ data).Encode) =
      .ok { Name := name, Driver := driver, Module := module, Priority := t.int priority,
            Type_ := ty } := by
  have hN := Int8Arch.map_pack_length name
  have hD := Int8Arch.map_pack_length driver
  have hM := Int8Arch.map_pack_length module
  have hw1 : PaddedAttribute.WellFormed (Attribute.padded
      { Length := nlaHeaderLen + (t.NativeEndian.PutUint32 priority).length,
        Type_ := CRYPTOCFGA_PRIORITY_VAL, Data := t.NativeEndian.PutUint32 priority }) := by
    refine Attribute.padded_wellFormed _ rfl ?_ ?_
    · simp only [ByteOrder.PutUint32_length, nlaHeaderLen]
      omega
    · simp only [CRYPTOCFGA_PRIORITY_VAL]
      omega
  have hw2 : PaddedAttribute.WellFormed (Attribute.padded
      { Length := nlaHeaderLen + data.length, Type_ := typ, Data := data }) := by
    refine Attribute.padded_wellFormed _ rfl ?_ htyp
    simp only [nlaHeaderLen]
    omega
  have hhdr : (CryptoUserAlg.bytes t
      { ualg with
        Name := Int8Arch.pack name
        Driver_name := Int8Arch.pack driver
        Module_name := Int8Arch.pack module }).length = sizeofCryptoUserAlg := by
    simp only [CryptoUserAlg.bytes, List.length_append, hN, hD, hM, ByteOrder.PutUint32_length,
      sizeofCryptoUserAlg]
  have hfields := fields_of_append _ _ _
    (t.NativeEndian.PutUint32 ualg.Type_ ++ (t.NativeEndian.PutUint32 ualg.Mask ++
      (t.NativeEndian.PutUint32 ualg.Refcnt ++ t.NativeEndian.PutUint32 ualg.Flags))) hN hD hM
  have hbytes : CryptoUserAlg.bytes t
      { ualg with
        Name := Int8Arch.pack name
        Driver_name := Int8Arch.pack driver
        Module_name := Int8Arch.pack module } =
      (Int8Arch.pack name).map Int8.toUint8 ++ (Int8Arch.pack driver).map Int8.toUint8 ++
        (Int8Arch.pack module).map Int8.toUint8 ++
        (t.NativeEndian.PutUint32 ualg.Type_ ++ (t.NativeEndian.PutUint32 ualg.Mask ++
          (t.NativeEndian.PutUint32 ualg.Refcnt ++ t.NativeEndian.PutUint32 ualg.Flags))) := by
    simp only [CryptoUserAlg.bytes, List.append_assoc]
  have henc : (((NewAttributeEncoder t).Uint32 CRYPTOCFGA_PRIORITY_VAL priority).Do typ
      data).Encode =
      Attribute.marshal t.NativeEndian
        { Length := nlaHeaderLen + (t.NativeEndian.PutUint32 priority).length,
          Type_ := CRYPTOCFGA_PRIORITY_VAL, Data := t.NativeEndian.PutUint32 priority } ++
      (Attribute.marshal t.NativeEndian
        { Length := nlaHeaderLen + data.length, Type_ := typ, Data := data } ++ []) := by
    simp [AttributeEncoder.Encode, AttributeEncoder.Do, AttributeEncoder.Uint32,
      NewAttributeEncoder]
  have hl1 := PaddedAttribute.bytes_length_pos t.NativeEndian _ hw1
  rw [← Attribute.marshal_eq_bytes] at hl1
  rw [parseAlgorithm_append t _ _ hhdr, henc, hbytes, hfields.1, hfields.2.1, hfields.2.2,
    nlencString_pack name hn, nlencString_pack driver hd, nlencString_pack module hm]
  obtain ⟨k, hk⟩ : ∃ k,
      (Attribute.marshal t.NativeEndian
        { Length := nlaHeaderLen + (t.NativeEndian.PutUint32 priority).length,
          Type_ := CRYPTOCFGA_PRIORITY_VAL, Data := t.NativeEndian.PutUint32 priority } ++
      (Attribute.marshal t.NativeEndian
        { Length := nlaHeaderLen + data.length, Type_ := typ, Data := data } ++ [])).length + 1 =
      k + 1 + 1 := by
    refine ⟨(Attribute.marshal t.NativeEndian
        { Length := nlaHeaderLen + (t.NativeEndian.PutUint32 priority).length,
          Type_ := CRYPTOCFGA_PRIORITY_VAL, Data := t.NativeEndian.PutUint32 priority } ++
      (Attribute.marshal t.NativeEndian
        { Length := nlaHeaderLen + data.length, Type_ := typ, Data := data } ++ [])).length - 1,
      ?_⟩
    rw [List.length_append]
    omega
  rw [hk, Attribute.marshal_eq_bytes, Attribute.marshal_eq_bytes,
    parseAlgorithm.loop_succ_bytes t t.NativeEndian (k + 1) _ _ hw1,
    parseAlgorithm.body_priority t _ _ rfl rfl (ByteOrder.PutUint32_length _ _)]
  simp only
  rw [parseAlgorithm.loop_succ_bytes t t.NativeEndian k _ _ hw2]
  simp only [Attribute.padded]
  rw [hbody]
  simp only
  rw [parseAlgorithm.loop_nil t k _ _ rfl]
  simp only [parseAlgorithm.outcome, Option.map_some',
    ByteOrder.Uint32_PutUint32_nil _ _ hp]

set_option maxRecDepth 200000 in
/-- C1, as stated, fails at three responses built with `pack` and encoded by
`mustEncodeResponse`. A name holding a zero byte (the letter a, then a zero
byte) comes back cut at the zero byte; a name of 65 bytes comes back as its
first 64 bytes; on a target with a 32-bit `int` the priority `2 ^ 31` comes
back as `- 2 ^ 31`. -/
theorem C1_roundtrip_counterexample :
    ((mustEncodeResponse Target.amd64
        (hashResponse zeroUserAlg [0x61, 0] [] [] 0 [] 0 0)).map (parseAlgorithm Target.amd64) =
        some (.ok { Name := [0x61], Driver := [], Module := [], Priority := 0,
                    Type_ := some (.Hash { BlockSize := 0, DigestSize := 0, typer := [] }) }) ∧
      (mustEncodeResponse Target.amd64
        (hashResponse zeroUserAlg [0x61, 0] [] [] 0 [] 0 0)).map (parseAlgorithm Target.amd64) ≠
        some (.ok { Name := [0x61, 0], Driver := [], Module := [], Priority := 0,
                    Type_ := some (.Hash { BlockSize := 0, DigestSize := 0, typer := [] }) })) ∧
    ((mustEncodeResponse Target.amd64
        (hashResponse zeroUserAlg (List.replicate 65 0x61) [] [] 0 [] 0 0)).map
          (parseAlgorithm Target.amd64) =
        some (.ok { Name := List.replicate 64 0x61, Driver := [], Module := [], Priority := 0,
                    Type_ := some (.Hash { BlockSize := 0, DigestSize := 0, typer := [] }) }) ∧
      (mustEncodeResponse Target.amd64
        (hashResponse zeroUserAlg (List.replicate 65 0x61) [] [] 0 [] 0 0)).map
          (parseAlgorithm Target.amd64) ≠
        some (.ok { Name := List.replicate 65 0x61, Driver := [], Module := [], Priority := 0,
                    Type_ := some (.Hash { BlockSize := 0, DigestSize := 0, typer := [] }) })) ∧
    ((mustEncodeResponse Target.i386
        (hashResponse zeroUserAlg [] [] [] 2147483648 [] 0 0)).map (parseAlgorithm Target.i386) =
        some (.ok { Name := [], Driver := [], Module := [], Priority := -2147483648,
                    Type_ := some (.Hash { BlockSize := 0, DigestSize := 0, typer := [] }) }) ∧
      (mustEncodeResponse Target.i386
        (hashResponse zeroUserAlg [] [] [] 2147483648 [] 0 0)).map (parseAlgorithm Target.i386) ≠
        some (.ok { Name := [], Driver := [], Module := [], Priority := 2147483648,
                    Type_ := some (.Hash { BlockSize := 0, DigestSize := 0, typer := [] }) })) := by
  refine ⟨⟨?_, ?_⟩, ⟨?_, ?_⟩, ⟨?_, ?_⟩⟩ <;> decide

/-- C1, amended: round trip. For a response built as by `TestConnAlgorithms` from
a name, a driver, a module and a type label that each have at most 64 bytes,
none of them zero, a priority and sizes that are 32-bit unsigned values which
`int` holds unchanged (all of them where `int` has 64 bits, those below
`2 ^ 31` where it has 32), and one cipher report or one hash report,
`parseAlgorithm (mustEncodeResponse r)` returns a record whose `Name`,
`Driver`, `Module`, `Priority` and variant fields are the originals. -/
theorem C1_roundtrip (t : Target) (ualg : CryptoUserAlg)
    (name driver module label : GoString)
    (priority blocksize minKeysize maxKeysize digestsize : Nat)
    (hn : fitsField name) (hd : fitsField driver) (hm : fitsField module)
    (hl : fitsField label)
    (hp : t.intHolds priority) (hb : t.intHolds blocksize) (hmin : t.intHolds minKeysize)
    (hmax : t.intHolds maxKeysize) (hdg : t.intHolds digestsize) :
    (mustEncodeResponse t
        (cipherResponse ualg name driver module priority label blocksize minKeysize
          maxKeysize)).map (parseAlgorithm t) =
      some (.ok { Name := name, Driver := driver, Module := module, Priority := priority,
                  Type_ := some (.Cipher
                    { BlockSize := blocksize, MinKeySize := minKeysize,
                      MaxKeySize := maxKeysize, typer := label }) }) ∧
    (mustEncodeResponse t
        (hashResponse ualg name driver module priority label blocksize digestsize)).map
          (parseAlgorithm t) =
      some (.ok { Name := name, Driver := driver, Module := module, Priority := priority,
                  Type_ := some (.Hash
                    { BlockSize := blocksize, DigestSize := digestsize, typer := label }) }) := by
  have hT := Int8Arch.map_pack_length label
  constructor
  · have hlen : (CryptoReportCipher.bytes t
        { Type_ := Int8Arch.pack label, Blocksize := blocksize, Min_keysize := minKeysize,
          Max_keysize := maxKeysize }).length = 76 := by
      simp only [CryptoReportCipher.bytes, List.length_append, hT, ByteOrder.PutUint32_length]
    simp only [mustEncodeResponse, cipherResponse, Option.map_some']
    rw [parseAlgorithm_encoded t ualg name driver module priority CRYPTOCFGA_REPORT_CIPHER
      (CryptoReportCipher.bytes t
        { Type_ := Int8Arch.pack label, Blocksize := blocksize, Min_keysize := minKeysize,
          Max_keysize := maxKeysize })
      (some (.Cipher
        { BlockSize := t.int blocksize, MinKeySize := t.int minKeysize,
          MaxKeySize := t.int maxKeysize, typer := label }))
      hn hd hm hp.1 (by decide) (by rw [hlen]; omega)
      (fun alg => parseAlgorithm.body_cipher t _ alg _ rfl rfl
        (parseCipher_bytes t label blocksize minKeysize maxKeysize hl hb.1 hmin.1 hmax.1))]
    rw [Target.int_of_intHolds t _ hp, Target.int_of_intHolds t _ hb,
      Target.int_of_intHolds t _ hmin, Target.int_of_intHolds t _ hmax]
  · have hlen : (CryptoReportHash.bytes t
        { Type_ := Int8Arch.pack label, Blocksize := blocksize,
          Digestsize := digestsize }).length = 72 := by
      simp only [CryptoReportHash.bytes, List.length_append, hT, ByteOrder.PutUint32_length]
    simp only [mustEncodeResponse, hashResponse, Option.map_some']
    rw [parseAlgorithm_encoded t ualg name driver module priority CRYPTOCFGA_REPORT_HASH
      (CryptoReportHash.bytes t
        { Type_ := Int8Arch.pack label, Blocksize := blocksize, Digestsize := digestsize })
      (some (.Hash
        { BlockSize := t.int blocksize, DigestSize := t.int digestsize, typer := label }))
      hn hd hm hp.1 (by decide) (by rw [hlen]; omega)
      (fun alg => parseAlgorithm.body_hash t _ alg _ rfl rfl
        (parseHash_bytes t label blocksize digestsize hl hb.1 hdg.1))]
    rw [Target.int_of_intHolds t _ hp, Target.int_of_intHolds t _ hb,
      Target.int_of_intHolds t _ hdg]

theorem C1_roundtrip_witness :
    fitsField sha1Name ∧ fitsField [0x6b] ∧ Target.s390x.intHolds 300 ∧
    Target.s390x.intHolds 4294967295 ∧
    (mustEncodeResponse Target.s390x
        (cipherResponse zeroUserAlg sha1Name sha1Name [0x6b] 300 sha1Name 16 16 4294967295)).map
          (parseAlgorithm Target.s390x) =
      some (.ok { Name := sha1Name, Driver := sha1Name, Module := [0x6b], Priority := 300,
                  Type_ := some (.Cipher
                    { BlockSize := 16, MinKeySize := 16, MaxKeySize := 4294967295,
                      typer := sha1Name }) }) ∧
    (mustEncodeResponse Target.s390x
        (hashResponse zeroUserAlg sha1Name sha1Name [0x6b] 300 sha1Name 16 20)).map
          (parseAlgorithm Target.s390x) =
      some (.ok { Name := sha1Name, Driver := sha1Name, Module := [0x6b], Priority := 300,
                  Type_ := some (.Hash { BlockSize := 16, DigestSize := 20, typer := sha1Name }) }) :=
  ⟨by decide, by decide, by decide, by decide,
    C1_roundtrip Target.s390x zeroUserAlg sha1Name sha1Name [0x6b] sha1Name 300 16 16 4294967295 20
      (by decide) (by decide) (by decide) (by decide) (by decide) (by decide) (by decide)
      (by decide) (by decide)⟩

/-! ## Lemmas: a successful walk -/

/-- The attributes of a walk do not depend on the bound, once it is above the
number of bytes left. -/
theorem AttributeDecoder.attributes_fuel :
    ∀ (n m : Nat) (ad : AttributeDecoder), ad.b.length < n → ad.b.length < m →
      ad.attributes n = ad.attributes m := by
  intro n
  induction n with
  | zero =>
    intro m ad h
    omega
  | succ k ih =>
    intro m ad hn hm
    cases m with
    | zero => omega
    | succ j =>
      unfold AttributeDecoder.attributes
      cases hnext : ad.Next with
      | mk ok ad1 =>
        cases ok with
        | false => rfl
        | true =>
          obtain ⟨hlt, _⟩ := AttributeDecoder.Next_true ad ad1 hnext
          simp only
          rw [ih j ad1 (by omega) (by omega)]

theorem AttributeDecoder.with_err_none (ad : AttributeDecoder) (h : ad.err = none) :
    { ad with err := none } = ad := by
  cases ad
  simp only at h
  subst h
  rfl

/-- What the body of the loop has done when it leaves the decoder without an
error: the decoder is unchanged, the three names are unchanged, a priority
attribute has a 4-byte payload, which is the new priority, a report attribute
is decoded by `parseCipher` resp. `parseHash` into the new type, and any other
attribute changes nothing. -/
theorem parseAlgorithm.body_success (t : Target) (ad ad1 : AttributeDecoder)
    (alg alg1 : Algorithm) (herr : ad.err = none)
    (hb : parseAlgorithm.body t ad alg = some (ad1, alg1)) (herr1 : ad1.err = none) :
    ad1 = ad ∧ alg1.Name = alg.Name ∧ alg1.Driver = alg.Driver ∧ alg1.Module = alg.Module ∧
    (if ad.a.Type_ = CRYPTOCFGA_PRIORITY_VAL then
        ad.a.Data.length = 4 ∧ alg1.Priority = t.int (ad.ByteOrder.Uint32 ad.a.Data) ∧
          alg1.Type_ = alg.Type_
      else if ad.a.Type_ = CRYPTOCFGA_REPORT_CIPHER then
        parseCipher t ad.a.Data = .ok alg1.Type_ ∧ alg1.Priority = alg.Priority
      else if ad.a.Type_ = CRYPTOCFGA_REPORT_HASH then
        parseHash t ad.a.Data = .ok alg1.Type_ ∧ alg1.Priority = alg.Priority
      else alg1 = alg) := by
  unfold parseAlgorithm.body at hb
  simp only [AttributeDecoder.Type_] at hb
  by_cases h1 : ad.a.Type_ = CRYPTOCFGA_PRIORITY_VAL
  · rw [if_pos h1]
    simp only [h1, if_true, AttributeDecoder.Uint32, herr, Option.isSome_none,
      Bool.false_eq_true, if_false, AttributeDecoder.Type_] at hb
    by_cases h4 : ad.a.Data.length = 4
    · simp only [h4, ne_eq, not_true_eq_false, if_false, Option.some.injEq,
        Prod.mk.injEq] at hb
      obtain ⟨hb1, hb2⟩ := hb
      subst hb1 hb2
      exact ⟨rfl, rfl, rfl, rfl, h4, rfl, rfl⟩
    · simp only [h4, ne_eq, not_false_eq_true, if_true, Option.some.injEq,
        Prod.mk.injEq] at hb
      obtain ⟨hb1, _⟩ := hb
      subst hb1
      simp at herr1
  · rw [if_neg h1]
    simp only [h1, if_false] at hb
    by_cases h2 : ad.a.Type_ = CRYPTOCFGA_REPORT_CIPHER
    · rw [if_pos h2]
      simp only [h2, if_true, AttributeDecoder.Do, herr, Option.isSome_none,
        Bool.false_eq_true, if_false] at hb
      cases hp : parseCipher t ad.a.Data with
      | ok v =>
        simp only [hp, Option.some.injEq, Prod.mk.injEq] at hb
        obtain ⟨hb1, hb2⟩ := hb
        subst hb1 hb2
        exact ⟨rfl, rfl, rfl, rfl, rfl, rfl⟩
      | error e =>
        simp only [hp, Option.some.injEq, Prod.mk.injEq] at hb
        obtain ⟨hb1, _⟩ := hb
        subst hb1
        simp at herr1
      | fault => simp [hp] at hb
    · rw [if_neg h2]
      simp only [h2, if_false] at hb
      by_cases h3 : ad.a.Type_ = CRYPTOCFGA_REPORT_HASH
      · rw [if_pos h3]
        simp only [h3, if_true, AttributeDecoder.Do, herr, Option.isSome_none,
          Bool.false_eq_true, if_false] at hb
        cases hp : parseHash t ad.a.Data with
        | ok v =>
          simp only [hp, Option.some.injEq, Prod.mk.injEq] at hb
          obtain ⟨hb1, hb2⟩ := hb
          subst hb1 hb2
          exact ⟨rfl, rfl, rfl, rfl, rfl, rfl⟩
        | error e =>
          simp only [hp, Option.some.injEq, Prod.mk.injEq] at hb
          obtain ⟨hb1, _⟩ := hb
          subst hb1
          simp at herr1
        | fault => simp [hp] at hb
      · rw [if_neg h3]
        simp only [h3, if_false, Option.some.injEq, Prod.mk.injEq] at hb
        obtain ⟨hb1, hb2⟩ := hb
        subst hb1 hb2
        exact ⟨rfl, rfl, rfl, rfl, rfl⟩

/-- One round of a loop that ends without an error: either `Next` returns false,
the record is final and the walk yields no attribute, or `Next` makes an
attribute current, the body leaves the decoder as it is, and the loop goes on
from there. -/
theorem parseAlgorithm.loop_success (t : Target) (k : Nat) (ad ad2 : AttributeDecoder)
    (alg alg2 : Algorithm)
    (hl : parseAlgorithm.loop t (k + 1) ad alg = some (ad2, alg2)) (herr2 : ad2.err = none) :
    (alg2 = alg ∧ ad.attributes (k + 1) = []) ∨
    ∃ ad1 alg1, ad.Next = (true, ad1) ∧ ad1.err = none ∧
      parseAlgorithm.body t ad1 alg = some (ad1, alg1) ∧
      parseAlgorithm.loop t k ad1 alg1 = some (ad2, alg2) ∧
      ad.attributes (k + 1) = ad1.a :: ad1.attributes k := by
  rw [parseAlgorithm.loop] at hl
  cases hnext : ad.Next with
  | mk ok ad1 =>
    rw [hnext] at hl
    cases ok with
    | false =>
      simp only [Option.some.injEq, Prod.mk.injEq] at hl
      left
      exact ⟨hl.2.symm, by rw [AttributeDecoder.attributes, hnext]⟩
    | true =>
      right
      obtain ⟨_, herr1⟩ := AttributeDecoder.Next_true ad ad1 hnext
      obtain ⟨e, alg1, hbody⟩ := parseAlgorithm.body_spec t ad1 alg herr1
      have hb : parseAlgorithm.body t ad1 alg = some ({ ad1 with err := e }, alg1) :=
        hbody ad1.b
      simp only [hb] at hl
      cases e with
      | some e1 =>
        rw [parseAlgorithm.loop_err t k _ alg1 e1 rfl] at hl
        simp only [Option.some.injEq, Prod.mk.injEq] at hl
        rw [← hl.1] at herr2
        simp at herr2
      | none =>
        rw [AttributeDecoder.with_err_none ad1 herr1] at hl hb
        exact ⟨ad1, alg1, rfl, herr1, hb, hl, by rw [AttributeDecoder.attributes, hnext]⟩

theorem AttributeDecoder.Next_ByteOrder (ad ad1 : AttributeDecoder) (ok : Bool)
    (h : ad.Next = (ok, ad1)) : ad1.ByteOrder = ad.ByteOrder := by
  unfold AttributeDecoder.Next at h
  split at h
  · simp only [Prod.mk.injEq] at h
    rw [← h.2]
  · split at h
    · simp only [Prod.mk.injEq] at h
      rw [← h.2]
    · split at h <;> simp only [Prod.mk.injEq] at h <;> rw [← h.2]

/-- A loop that ends without an error leaves the three names as they were. -/
theorem parseAlgorithm.loop_names (t : Target) :
    ∀ (n : Nat) (ad ad2 : AttributeDecoder) (alg alg2 : Algorithm),
      parseAlgorithm.loop t n ad alg = some (ad2, alg2) → ad2.err = none →
      alg2.Name = alg.Name ∧ alg2.Driver = alg.Driver ∧ alg2.Module = alg.Module := by
  intro n
  induction n with
  | zero =>
    intro ad ad2 alg alg2 hl _
    simp only [parseAlgorithm.loop, Option.some.injEq, Prod.mk.injEq] at hl
    rw [← hl.2]
    exact ⟨rfl, rfl, rfl⟩
  | succ k ih =>
    intro ad ad2 alg alg2 hl herr2
    rcases parseAlgorithm.loop_success t k ad ad2 alg alg2 hl herr2 with
      ⟨h, _⟩ | ⟨ad1, alg1, _, herr1, hb, hl1, _⟩
    · rw [h]
      exact ⟨rfl, rfl, rfl⟩
    · obtain ⟨_, b1, b2, b3, _⟩ :=
        parseAlgorithm.body_success t ad1 ad1 alg alg1 herr1 hb herr1
      obtain ⟨i1, i2, i3⟩ := ih ad1 ad2 alg1 alg2 hl1 herr2
      exact ⟨i1.trans b1, i2.trans b2, i3.trans b3⟩

/-- A loop that ends without an error on a walk that yields no report attribute
leaves the type of the record as it was. -/
theorem parseAlgorithm.loop_no_report (t : Target) :
    ∀ (n : Nat) (ad ad2 : AttributeDecoder) (alg alg2 : Algorithm),
      parseAlgorithm.loop t n ad alg = some (ad2, alg2) → ad2.err = none →
      (∀ a ∈ ad.attributes n,
        a.Type_ ≠ CRYPTOCFGA_REPORT_CIPHER ∧ a.Type_ ≠ CRYPTOCFGA_REPORT_HASH) →
      alg2.Type_ = alg.Type_ := by
  intro n
  induction n with
  | zero =>
    intro ad ad2 alg alg2 hl _ _
    simp only [parseAlgorithm.loop, Option.some.injEq, Prod.mk.injEq] at hl
    rw [← hl.2]
  | succ k ih =>
    intro ad ad2 alg alg2 hl herr2 hno
    rcases parseAlgorithm.loop_success t k ad ad2 alg alg2 hl herr2 with
      ⟨h, _⟩ | ⟨ad1, alg1, _, herr1, hb, hl1, hat⟩
    · rw [h]
    · rw [hat] at hno
      obtain ⟨hc, hh⟩ := hno ad1.a (List.mem_cons_self _ _)
      have hrest := ih ad1 ad2 alg1 alg2 hl1 herr2
        (fun a ha => hno a (List.mem_cons_of_mem _ ha))
      obtain ⟨_, _, _, _, hif⟩ :=
        parseAlgorithm.body_success t ad1 ad1 alg alg1 herr1 hb herr1
      rw [hrest]
      by_cases h1 : ad1.a.Type_ = CRYPTOCFGA_PRIORITY_VAL
      · rw [if_pos h1] at hif
        exact hif.2.2
      · rw [if_neg h1, if_neg hc, if_neg hh] at hif
        rw [hif]

/-- A loop that ends without an error on a walk that yields no priority attribute
leaves the priority of the record as it was. -/
theorem parseAlgorithm.loop_no_priority (t : Target) :
    ∀ (n : Nat) (ad ad2 : AttributeDecoder) (alg alg2 : Algorithm),
      parseAlgorithm.loop t n ad alg = some (ad2, alg2) → ad2.err = none →
      (∀ a ∈ ad.attributes n, a.Type_ ≠ CRYPTOCFGA_PRIORITY_VAL) →
      alg2.Priority = alg.Priority := by
  intro n
  induction n with
  | zero =>
    intro ad ad2 alg alg2 hl _ _
    simp only [parseAlgorithm.loop, Option.some.injEq, Prod.mk.injEq] at hl
    rw [← hl.2]
  | succ k ih =>
    intro ad ad2 alg alg2 hl herr2 hno
    rcases parseAlgorithm.loop_success t k ad ad2 alg alg2 hl herr2 with
      ⟨h, _⟩ | ⟨ad1, alg1, _, herr1, hb, hl1, hat⟩
    · rw [h]
    · rw [hat] at hno
      have h1 := hno ad1.a (List.mem_cons_self _ _)
      have hrest := ih ad1 ad2 alg1 alg2 hl1 herr2
        (fun a ha => hno a (List.mem_cons_of_mem _ ha))
      obtain ⟨_, _, _, _, hif⟩ :=
        parseAlgorithm.body_success t ad1 ad1 alg alg1 herr1 hb herr1
      rw [hrest, if_neg h1] at *
      by_cases h2 : ad1.a.Type_ = CRYPTOCFGA_REPORT_CIPHER
      · rw [if_pos h2] at hif
        exact hif.2
      · rw [if_neg h2] at hif
        by_cases h3 : ad1.a.Type_ = CRYPTOCFGA_REPORT_HASH
        · rw [if_pos h3] at hif
          exact hif.2
        · rw [if_neg h3] at hif
          rw [hif]

/-- A loop that ends without an error: the type of the record is what `parseCipher`
resp. `parseHash` decodes from the last report attribute of the walk. -/
theorem parseAlgorithm.loop_last_report (t : Target) (a : Attribute) (post : List Attribute)
    (hpost : ∀ x ∈ post,
      x.Type_ ≠ CRYPTOCFGA_REPORT_CIPHER ∧ x.Type_ ≠ CRYPTOCFGA_REPORT_HASH) :
    ∀ (pre : List Attribute) (n : Nat) (ad ad2 : AttributeDecoder) (alg alg2 : Algorithm),
      parseAlgorithm.loop t n ad alg = some (ad2, alg2) → ad2.err = none →
      ad.attributes n = pre ++ a :: post →
      (a.Type_ = CRYPTOCFGA_REPORT_CIPHER → parseCipher t a.Data = .ok alg2.Type_) ∧
      (a.Type_ = CRYPTOCFGA_REPORT_HASH → parseHash t a.Data = .ok alg2.Type_) := by
  intro pre
  induction pre with
  | nil =>
    intro n ad ad2 alg alg2 hl herr2 hat
    cases n with
    | zero => simp [AttributeDecoder.attributes] at hat
    | succ k =>
      rcases parseAlgorithm.loop_success t k ad ad2 alg alg2 hl herr2 with
        ⟨_, h⟩ | ⟨ad1, alg1, _, herr1, hb, hl1, hat1⟩
      · rw [h] at hat
        simp at hat
      · rw [hat1, List.nil_append, List.cons.injEq] at hat
        obtain ⟨ha, hp⟩ := hat
        have hrest := parseAlgorithm.loop_no_report t k ad1 ad2 alg1 alg2 hl1 herr2
          (by rw [hp]; exact hpost)
        obtain ⟨_, _, _, _, hif⟩ :=
          parseAlgorithm.body_success t ad1 ad1 alg alg1 herr1 hb herr1
        rw [ha] at hif
        rw [hrest]
        constructor
        · intro hc
          rw [if_neg (by rw [hc]; decide), if_pos hc] at hif
          exact hif.1
        · intro hh
          rw [if_neg (by rw [hh]; decide), if_neg (by rw [hh]; decide), if_pos hh] at hif
          exact hif.1
  | cons x xs ih =>
    intro n ad ad2 alg alg2 hl herr2 hat
    cases n with
    | zero => simp [AttributeDecoder.attributes] at hat
    | succ k =>
      rcases parseAlgorithm.loop_success t k ad ad2 alg alg2 hl herr2 with
        ⟨_, h⟩ | ⟨ad1, alg1, _, herr1, hb, hl1, hat1⟩
      · rw [h] at hat
        simp at hat
      · rw [hat1, List.cons_append, List.cons.injEq] at hat
        exact ih k ad1 ad2 alg1 alg2 hl1 herr2 hat.2

/-- A loop that ends without an error: the priority of the record is the 4-byte
payload of the last priority attribute of the walk, converted to `int`. -/
theorem parseAlgorithm.loop_last_priority (t : Target) (a : Attribute) (post : List Attribute)
    (ha : a.Type_ = CRYPTOCFGA_PRIORITY_VAL)
    (hpost : ∀ x ∈ post, x.Type_ ≠ CRYPTOCFGA_PRIORITY_VAL) :
    ∀ (pre : List Attribute) (n : Nat) (ad ad2 : AttributeDecoder) (alg alg2 : Algorithm),
      parseAlgorithm.loop t n ad alg = some (ad2, alg2) → ad2.err = none →
      ad.attributes n = pre ++ a :: post →
      a.Data.length = 4 ∧ alg2.Priority = t.int (ad.ByteOrder.Uint32 a.Data) := by
  intro pre
  induction pre with
  | nil =>
    intro n ad ad2 alg alg2 hl herr2 hat
    cases n with
    | zero => simp [AttributeDecoder.attributes] at hat
    | succ k =>
      rcases parseAlgorithm.loop_success t k ad ad2 alg alg2 hl herr2 with
        ⟨_, h⟩ | ⟨ad1, alg1, hn, herr1, hb, hl1, hat1⟩
      · rw [h] at hat
        simp at hat
      · rw [hat1, List.nil_append, List.cons.injEq] at hat
        obtain ⟨ha1, hp⟩ := hat
        have hrest := parseAlgorithm.loop_no_priority t k ad1 ad2 alg1 alg2 hl1 herr2
          (by rw [hp]; exact hpost)
        obtain ⟨_, _, _, _, hif⟩ :=
          parseAlgorithm.body_success t ad1 ad1 alg alg1 herr1 hb herr1
        rw [ha1, if_pos ha, AttributeDecoder.Next_ByteOrder ad ad1 true hn] at hif
        rw [hrest]
        exact ⟨hif.1, hif.2.1⟩
  | cons x xs ih =>
    intro n ad ad2 alg alg2 hl herr2 hat
    cases n with
    | zero => simp [AttributeDecoder.attributes] at hat
    | succ k =>
      rcases parseAlgorithm.loop_success t k ad ad2 alg alg2 hl herr2 with
        ⟨_, h⟩ | ⟨ad1, alg1, hn, herr1, hb, hl1, hat1⟩
      · rw [h] at hat
        simp at hat
      · rw [hat1, List.cons_append, List.cons.injEq] at hat
        rw [← AttributeDecoder.Next_ByteOrder ad ad1 true hn]
        exact ih k ad1 ad2 alg1 alg2 hl1 herr2 hat.2

/-! ## Lemmas: a message that decodes -/

theorem take_header_fields (b : List Byte) :
    (b.take sizeofCryptoUserAlg).take 64 = b.take 64 ∧
    ((b.take sizeofCryptoUserAlg).drop 64).take 64 = (b.drop 64).take 64 ∧
    ((b.take sizeofCryptoUserAlg).drop 128).take 64 = (b.drop 128).take 64 := by
  simp [sizeofCryptoUserAlg, List.drop_take, List.take_take]

/-- A message `parseAlgorithm` decodes holds a complete header, and the record is
what the loop makes, without an error, of the names of the header and of the
walk over the bytes after the header. -/
theorem parseAlgorithm_ok (t : Target) (b : List Byte) (r : Algorithm)
    (h : parseAlgorithm t b = .ok r) :
    sizeofCryptoUserAlg ≤ b.length ∧
    ∃ ad, parseAlgorithm.loop t ((b.drop sizeofCryptoUserAlg).length + 1)
        { ByteOrder := t.NativeEndian, a := { Length := 0, Type_ := 0, Data := [] },
          b := b.drop sizeofCryptoUserAlg, err := none }
        { Name := nlencString (b.take 64)
          Driver := nlencString ((b.drop 64).take 64)
          Module := nlencString ((b.drop 128).take 64)
          Priority := 0
          Type_ := none } = some (ad, r) ∧ ad.err = none := by
  by_cases hlen : b.length < sizeofCryptoUserAlg
  · unfold parseAlgorithm at h
    rw [if_pos hlen] at h
    cases h
  · have hh : (b.take sizeofCryptoUserAlg).length = sizeofCryptoUserAlg := by
      rw [List.length_take]
      omega
    have h1 := parseAlgorithm_append t (b.take sizeofCryptoUserAlg)
      (b.drop sizeofCryptoUserAlg) hh
    obtain ⟨f1, f2, f3⟩ := take_header_fields b
    rw [List.take_append_drop, h, f1, f2, f3] at h1
    refine ⟨by omega, ?_⟩
    cases hl : parseAlgorithm.loop t ((b.drop sizeofCryptoUserAlg).length + 1)
        { ByteOrder := t.NativeEndian, a := { Length := 0, Type_ := 0, Data := [] },
          b := b.drop sizeofCryptoUserAlg, err := none }
        { Name := nlencString (b.take 64)
          Driver := nlencString ((b.drop 64).take 64)
          Module := nlencString ((b.drop 128).take 64)
          Priority := 0
          Type_ := none } with
    | none =>
      rw [hl] at h1
      simp [parseAlgorithm.outcome] at h1
    | some p =>
      obtain ⟨ad, a⟩ := p
      rw [hl] at h1
      simp only [parseAlgorithm.outcome, Option.map_some'] at h1
      cases he : ad.err with
      | some e =>
        rw [he] at h1
        cases h1
      | none =>
        rw [he] at h1
        simp only [Result.ok.injEq] at h1
        rw [h1]
        exact ⟨ad, rfl, he⟩

theorem messageAttributes_eq (t : Target) (b : List Byte) :
    messageAttributes t b =
      AttributeDecoder.attributes ((b.drop sizeofCryptoUserAlg).length + 1)
        { ByteOrder := t.NativeEndian, a := { Length := 0, Type_ := 0, Data := [] },
          b := b.drop sizeofCryptoUserAlg, err := none } := rfl

/-- A message that is exactly a header decodes, to the names of the header with
priority 0 and no type, and its attribute stream holds no attribute. -/
theorem parseAlgorithm_header_only (t : Target) (hdr : List Byte)
    (hh : hdr.length = sizeofCryptoUserAlg) :
    parseAlgorithm t hdr =
      .ok { Name := nlencString (hdr.take 64)
            Driver := nlencString ((hdr.drop 64).take 64)
            Module := nlencString ((hdr.drop 128).take 64)
            Priority := 0
            Type_ := none } ∧
    messageAttributes t hdr = [] := by
  constructor
  · have h1 := parseAlgorithm_append t hdr [] hh
    rw [List.append_nil, parseAlgorithm.loop_nil t _ _ _ rfl] at h1
    exact h1
  · rw [messageAttributes_eq, List.drop_of_length_le (by omega)]
    rfl

/-- The attributes of a message whose stream is a sequence of well-formed
attributes are those attributes, in order. -/
theorem AttributeDecoder.attributes_stream (bo : Cryptonl.ByteOrder) :
    ∀ (pre : List PaddedAttribute), (∀ p ∈ pre, p.WellFormed) →
      ∀ (n : Nat) (a0 : Attribute), pre.length < n →
        AttributeDecoder.attributes n
          { ByteOrder := bo, a := a0, b := attributeStream bo pre, err := none } =
          pre.map (fun p => p.attr) := by
  intro pre
  induction pre with
  | nil =>
    intro _ n a0 hn
    obtain ⟨k, rfl⟩ : ∃ k, n = k + 1 := ⟨n - 1, by simp only [List.length_nil] at hn; omega⟩
    simp [AttributeDecoder.attributes, AttributeDecoder.Next, attributeStream]
  | cons x xs ih =>
    intro hwf n a0 hn
    have hx := hwf x (List.mem_cons_self x xs)
    have hxs : ∀ p ∈ xs, p.WellFormed := fun a ha => hwf a (List.mem_cons_of_mem x ha)
    simp only [List.length_cons] at hn
    obtain ⟨k, rfl⟩ : ∃ k, n = k + 1 := ⟨n - 1, by omega⟩
    rw [AttributeDecoder.attributes, attributeStream_cons,
      AttributeDecoder.Next_bytes _ x hx (attributeStream bo xs) rfl rfl]
    simp only [List.map_cons, List.cons.injEq, true_and]
    exact ih hxs k x.attr (by omega)

theorem messageAttributes_stream (t : Target) (hdr : List Byte) (pre : List PaddedAttribute)
    (hh : hdr.length = sizeofCryptoUserAlg) (hpre : ∀ p ∈ pre, p.WellFormed) :
    messageAttributes t (hdr ++ attributeStream t.NativeEndian pre) =
      pre.map (fun p => p.attr) := by
  have hs := attributeStream_length_ge t.NativeEndian pre hpre
  rw [messageAttributes_eq, List.drop_left' hh]
  exact AttributeDecoder.attributes_stream t.NativeEndian pre hpre _ _ (by omega)

/-! ## Theorems: the record of a message that decodes -/

/-- C11: for every message `b` on which `parseAlgorithm` succeeds (it has at
least `sizeofCryptoUserAlg` bytes), the `Name` of the record is `str` of the
first 64-byte field of `b` (bytes 0 to 63), `Driver` is `str` of the second
(bytes 64 to 127), `Module` is `str` of the third (bytes 128 to 191), and the
attribute walk starts at byte offset `sizeofCryptoUserAlg`: the record is what
the loop makes of the decoder set up on the bytes from that offset on. -/
theorem C11_names_from_header (t : Target) (b : List Byte) (r : Algorithm)
    (h : parseAlgorithm t b = .ok r) :
    sizeofCryptoUserAlg ≤ b.length ∧
    r.Name = Int8Arch.str ((b.take 64).map Int8.ofUint8) ∧
    r.Driver = Int8Arch.str (((b.drop 64).take 64).map Int8.ofUint8) ∧
    r.Module = Int8Arch.str (((b.drop 128).take 64).map Int8.ofUint8) ∧
    ∃ ad0 ad, NewAttributeDecoder t (b.drop sizeofCryptoUserAlg) = .ok ad0 ∧
      ad0.b = b.drop sizeofCryptoUserAlg ∧
      parseAlgorithm.loop t ((b.drop sizeofCryptoUserAlg).length + 1) ad0
        { Name := r.Name, Driver := r.Driver, Module := r.Module, Priority := 0,
          Type_ := none } = some (ad, r) ∧
      ad.Err = none := by
  obtain ⟨hlen, ad, hl, he⟩ := parseAlgorithm_ok t b r h
  obtain ⟨n1, n2, n3⟩ := parseAlgorithm.loop_names t _ _ _ _ _ hl he
  simp only at n1 n2 n3
  refine ⟨hlen, ?_, ?_, ?_, _, ad, rfl, rfl, ?_, he⟩
  · rw [n1, Int8Arch.str_map_ofUint8]
  · rw [n2, Int8Arch.str_map_ofUint8]
  · rw [n3, Int8Arch.str_map_ofUint8]
  · rw [n1, n2, n3]
    exact hl

set_option maxRecDepth 200000 in
theorem C11_names_from_header_witness :
    parseAlgorithm Target.amd64 sha1Message = .ok sha1Algorithm ∧
    sizeofCryptoUserAlg ≤ sha1Message.length ∧
    sha1Algorithm.Name = Int8Arch.str ((sha1Message.take 64).map Int8.ofUint8) ∧
    sha1Algorithm.Driver = Int8Arch.str (((sha1Message.drop 64).take 64).map Int8.ofUint8) ∧
    sha1Algorithm.Module = Int8Arch.str (((sha1Message.drop 128).take 64).map Int8.ofUint8) ∧
    ∃ ad0 ad, NewAttributeDecoder Target.amd64 (sha1Message.drop sizeofCryptoUserAlg) = .ok ad0 ∧
      ad0.b = sha1Message.drop sizeofCryptoUserAlg ∧
      parseAlgorithm.loop Target.amd64 ((sha1Message.drop sizeofCryptoUserAlg).length + 1) ad0
        { Name := sha1Algorithm.Name, Driver := sha1Algorithm.Driver,
          Module := sha1Algorithm.Module, Priority := 0, Type_ := none } =
        some (ad, sha1Algorithm) ∧
      ad.Err = none :=
  ⟨by decide, C11_names_from_header Target.amd64 sha1Message sha1Algorithm (by decide)⟩

/-- C12: for every message on which `parseAlgorithm` succeeds and whose attribute
stream holds neither a cipher report nor a hash report attribute, the `Type`
of the record is unset (nil). A message that is exactly a header, with an
empty attribute stream, is one of them: it decodes, and its `Type` is unset. -/
theorem C12_no_report_type_unset (t : Target) :
    (∀ (b : List Byte) (r : Algorithm), parseAlgorithm t b = .ok r →
      (∀ a ∈ messageAttributes t b,
        a.Type_ ≠ CRYPTOCFGA_REPORT_CIPHER ∧ a.Type_ ≠ CRYPTOCFGA_REPORT_HASH) →
      r.Type_ = none) ∧
    (∀ hdr : List Byte, hdr.length = sizeofCryptoUserAlg →
      messageAttributes t hdr = [] ∧ ∃ r, parseAlgorithm t hdr = .ok r ∧ r.Type_ = none) := by
  constructor
  · intro b r h hno
    obtain ⟨_, ad, hl, he⟩ := parseAlgorithm_ok t b r h
    exact parseAlgorithm.loop_no_report t _ _ _ _ _ hl he hno
  · intro hdr hh
    obtain ⟨h1, h2⟩ := parseAlgorithm_header_only t hdr hh
    exact ⟨h2, _, h1, rfl⟩

set_option maxRecDepth 200000 in
theorem C12_no_report_type_unset_witness :
    (parseAlgorithm Target.amd64 (sampleMessage [samplePriority, sampleAttribute 2]) =
        .ok { emptyAlgorithm with Priority := 300 } ∧
      (∀ a ∈ messageAttributes Target.amd64 (sampleMessage [samplePriority, sampleAttribute 2]),
        a.Type_ ≠ CRYPTOCFGA_REPORT_CIPHER ∧ a.Type_ ≠ CRYPTOCFGA_REPORT_HASH) ∧
      ({ emptyAlgorithm with Priority := 300 } : Algorithm).Type_ = none) ∧
    (zeroHeader.length = sizeofCryptoUserAlg ∧
      messageAttributes Target.amd64 zeroHeader = [] ∧
      ∃ r, parseAlgorithm Target.amd64 zeroHeader = .ok r ∧ r.Type_ = none) :=
  ⟨⟨by decide, by decide,
      (C12_no_report_type_unset Target.amd64).1
        (sampleMessage [samplePriority, sampleAttribute 2])
        { emptyAlgorithm with Priority := 300 } (by decide) (by decide)⟩,
    ⟨by decide, (C12_no_report_type_unset Target.amd64).2 zeroHeader (by decide)⟩⟩

/-- C13: for every message on which `parseAlgorithm` succeeds and whose attribute
stream holds no priority attribute, the `Priority` of the record is 0. -/
theorem C13_no_priority_zero (t : Target) (b : List Byte) (r : Algorithm)
    (h : parseAlgorithm t b = .ok r)
    (hno : ∀ a ∈ messageAttributes t b, a.Type_ ≠ CRYPTOCFGA_PRIORITY_VAL) :
    r.Priority = 0 := by
  obtain ⟨_, ad, hl, he⟩ := parseAlgorithm_ok t b r h
  exact parseAlgorithm.loop_no_priority t _ _ _ _ _ hl he hno

set_option maxRecDepth 200000 in
theorem C13_no_priority_zero_witness :
    parseAlgorithm Target.amd64 (sampleMessage [sampleHash, sampleAttribute 2]) =
      .ok { emptyAlgorithm with
            Type_ := some (.Hash { BlockSize := 64, DigestSize := 20, typer := [] }) } ∧
    (∀ a ∈ messageAttributes Target.amd64 (sampleMessage [sampleHash, sampleAttribute 2]),
      a.Type_ ≠ CRYPTOCFGA_PRIORITY_VAL) ∧
    ({ emptyAlgorithm with
        Type_ := some (.Hash { BlockSize := 64, DigestSize := 20, typer := [] }) } :
      Algorithm).Priority = 0 :=
  ⟨by decide, by decide,
    C13_no_priority_zero Target.amd64 (sampleMessage [sampleHash, sampleAttribute 2])
      { emptyAlgorithm with
        Type_ := some (.Hash { BlockSize := 64, DigestSize := 20, typer := [] }) }
      (by decide) (by decide)⟩

theorem parseCipher_ok_cipher (t : Target) (d : List Byte) (v : Option AlgorithmType)
    (h : parseCipher t d = .ok v) :
    d.length = sizeofCryptoReportCipher ∧
    v = some (.Cipher
      { BlockSize := t.int (t.NativeEndian.Uint32 (d.drop 64))
        MinKeySize := t.int (t.NativeEndian.Uint32 (d.drop 68))
        MaxKeySize := t.int (t.NativeEndian.Uint32 (d.drop 72))
        typer := nlencString (d.take 64) }) := by
  unfold parseCipher CryptoReportCipher.overlay at h
  by_cases hl : d.length = sizeofCryptoReportCipher
  · simp only [hl, ne_eq, not_true_eq_false, if_false, lt_self_iff_false, Result.ok.injEq,
      Int8Arch.str_map_ofUint8] at h
    exact ⟨hl, h.symm⟩
  · simp [hl] at h

theorem parseHash_ok_hash (t : Target) (d : List Byte) (v : Option AlgorithmType)
    (h : parseHash t d = .ok v) :
    d.length = sizeofCryptoReportHash ∧
    v = some (.Hash
      { BlockSize := t.int (t.NativeEndian.Uint32 (d.drop 64))
        DigestSize := t.int (t.NativeEndian.Uint32 (d.drop 68))
        typer := nlencString (d.take 64) }) := by
  unfold parseHash CryptoReportHash.overlay at h
  by_cases hl : d.length = sizeofCryptoReportHash
  · simp only [hl, ne_eq, not_true_eq_false, if_false, lt_self_iff_false, Result.ok.injEq,
      Int8Arch.str_map_ofUint8] at h
    exact ⟨hl, h.symm⟩
  · simp [hl] at h

/-- C14: last seen wins. For every message on which `parseAlgorithm` succeeds and
whose attribute stream holds report attributes, of which `a` is the last in
buffer order (no report attribute among the attributes `post` after it), as
when the stream holds both a cipher and a hash report: the record holds one
variant, the one decoded from `a`, a `Cipher` if `a` is a cipher report and a
`Hash` if it is a hash report. -/
theorem C14_last_report_wins (t : Target) (b : List Byte) (r : Algorithm)
    (pre : List Attribute) (a : Attribute) (post : List Attribute)
    (h : parseAlgorithm t b = .ok r)
    (hat : messageAttributes t b = pre ++ a :: post)
    (hpost : ∀ x ∈ post,
      x.Type_ ≠ CRYPTOCFGA_REPORT_CIPHER ∧ x.Type_ ≠ CRYPTOCFGA_REPORT_HASH) :
    (a.Type_ = CRYPTOCFGA_REPORT_CIPHER →
      ∃ c, r.Type_ = some (.Cipher c) ∧ parseCipher t a.Data = .ok (some (.Cipher c))) ∧
    (a.Type_ = CRYPTOCFGA_REPORT_HASH →
      ∃ d, r.Type_ = some (.Hash d) ∧ parseHash t a.Data = .ok (some (.Hash d))) := by
  obtain ⟨_, ad, hl, he⟩ := parseAlgorithm_ok t b r h
  obtain ⟨hc, hh⟩ := parseAlgorithm.loop_last_report t a post hpost pre _ _ _ _ _ hl he hat
  constructor
  · intro ha
    have h1 := hc ha
    obtain ⟨_, h2⟩ := parseCipher_ok_cipher t a.Data r.Type_ h1
    exact ⟨_, h2, by rw [← h2]; exact h1⟩
  · intro ha
    have h1 := hh ha
    obtain ⟨_, h2⟩ := parseHash_ok_hash t a.Data r.Type_ h1
    exact ⟨_, h2, by rw [← h2]; exact h1⟩

set_option maxRecDepth 200000 in
theorem C14_last_report_wins_witness :
    parseAlgorithm Target.amd64
        (sampleMessage [sampleCipher, samplePriority, sampleHash, sampleAttribute 2]) =
      .ok { emptyAlgorithm with
            Priority := 300
            Type_ := some (.Hash { BlockSize := 64, DigestSize := 20, typer := [] }) } ∧
    messageAttributes Target.amd64
        (sampleMessage [sampleCipher, samplePriority, sampleHash, sampleAttribute 2]) =
      [sampleCipher.attr, samplePriority.attr] ++ sampleHash.attr :: [(sampleAttribute 2).attr] ∧
    (∀ x ∈ [(sampleAttribute 2).attr],
      x.Type_ ≠ CRYPTOCFGA_REPORT_CIPHER ∧ x.Type_ ≠ CRYPTOCFGA_REPORT_HASH) ∧
    (sampleHash.attr.Type_ = CRYPTOCFGA_REPORT_CIPHER →
      ∃ c, ({ emptyAlgorithm with
              Priority := 300
              Type_ := some (.Hash { BlockSize := 64, DigestSize := 20, typer := [] }) } :
            Algorithm).Type_ = some (.Cipher c) ∧
        parseCipher Target.amd64 sampleHash.attr.Data = .ok (some (.Cipher c))) ∧
    (sampleHash.attr.Type_ = CRYPTOCFGA_REPORT_HASH →
      ∃ d, ({ emptyAlgorithm with
              Priority := 300
              Type_ := some (.Hash { BlockSize := 64, DigestSize := 20, typer := [] }) } :
            Algorithm).Type_ = some (.Hash d) ∧
        parseHash Target.amd64 sampleHash.attr.Data = .ok (some (.Hash d))) :=
  ⟨by decide, by decide, by decide,
    C14_last_report_wins Target.amd64
      (sampleMessage [sampleCipher, samplePriority, sampleHash, sampleAttribute 2])
      { emptyAlgorithm with
        Priority := 300
        Type_ := some (.Hash { BlockSize := 64, DigestSize := 20, typer := [] }) }
      [sampleCipher.attr, samplePriority.attr] sampleHash.attr [(sampleAttribute 2).attr]
      (by decide) (by decide) (by decide)⟩

/-! ## Lemmas: values on the wire -/

theorem ByteOrder.Uint32_lt (bo : ByteOrder) (b : List Byte) : bo.Uint32 b < 4294967296 := by
  rcases b with _ | ⟨b0, _ | ⟨b1, _ | ⟨b2, _ | ⟨b3, tl⟩⟩⟩⟩
  · cases bo <;> simp [ByteOrder.Uint32]
  · cases bo <;> simp [ByteOrder.Uint32]
  · cases bo <;> simp [ByteOrder.Uint32]
  · cases bo <;> simp [ByteOrder.Uint32]
  · have h0 := b0.isLt
    have h1 := b1.isLt
    have h2 := b2.isLt
    have h3 := b3.isLt
    cases bo <;> simp only [ByteOrder.Uint32] <;> omega

theorem Target.int_eq (t : Target) (v : Nat) (hv : v < 4294967296)
    (h : t.int64 = true ∨ v < 2147483648) : t.int v = (v : Int) :=
  Target.int_of_intHolds t v ⟨hv, h⟩

theorem Target.int_range (t : Target) (v : Nat) (hv : v < 4294967296) (h64 : t.int64 = true) :
    0 ≤ t.int v ∧ t.int v < 4294967296 := by
  rw [Target.int_eq t v hv (Or.inl h64)]
  omega

/-- The last element of a list with a property: either no element has it, or the
list splits at its last element that has it. -/
theorem exists_last {α : Type} (p : α → Prop) [DecidablePred p] (l : List α) :
    (∀ x ∈ l, ¬ p x) ∨ ∃ pre a post, l = pre ++ a :: post ∧ p a ∧ ∀ x ∈ post, ¬ p x := by
  induction l with
  | nil =>
    left
    intro x hx
    cases hx
  | cons x xs ih =>
    rcases ih with hno | ⟨pre, a, post, hl, ha, hpost⟩
    · by_cases hx : p x
      · exact Or.inr ⟨[], x, xs, rfl, hx, hno⟩
      · left
        intro y hy
        rcases List.mem_cons.mp hy with rfl | hy
        · exact hx
        · exact hno y hy
    · exact Or.inr ⟨x :: pre, a, post, by rw [hl, List.cons_append], ha, hpost⟩

/-- The priority of a record that decodes: 0, or the conversion to `int` of a
32-bit value. -/
theorem parseAlgorithm_priority (t : Target) (b : List Byte) (r : Algorithm)
    (h : parseAlgorithm t b = .ok r) :
    ∃ v, v < 4294967296 ∧ r.Priority = t.int v := by
  obtain ⟨_, ad, hl, he⟩ := parseAlgorithm_ok t b r h
  rcases exists_last (fun a : Attribute => a.Type_ = CRYPTOCFGA_PRIORITY_VAL)
    (messageAttributes t b) with hno | ⟨pre, a, post, hat, ha, hpost⟩
  · refine ⟨0, by omega, ?_⟩
    rw [parseAlgorithm.loop_no_priority t _ _ _ _ _ hl he hno]
    cases h64 : t.int64 <;> simp [Target.int, h64]
  · obtain ⟨_, hp⟩ :=
      parseAlgorithm.loop_last_priority t a post ha hpost pre _ _ _ _ _ hl he hat
    exact ⟨_, ByteOrder.Uint32_lt _ _, hp⟩

/-- The type of a record that decodes: unset, or a variant whose size fields are
the conversions to `int` of 32-bit values. -/
theorem parseAlgorithm_type (t : Target) (b : List Byte) (r : Algorithm)
    (h : parseAlgorithm t b = .ok r) :
    r.Type_ = none ∨
    (∃ v1 v2 v3 label, v1 < 4294967296 ∧ v2 < 4294967296 ∧ v3 < 4294967296 ∧
      r.Type_ = some (.Cipher
        { BlockSize := t.int v1, MinKeySize := t.int v2, MaxKeySize := t.int v3,
          typer := label })) ∨
    (∃ v1 v2 label, v1 < 4294967296 ∧ v2 < 4294967296 ∧
      r.Type_ = some (.Hash { BlockSize := t.int v1, DigestSize := t.int v2, typer := label })) := by
  obtain ⟨_, ad, hl, he⟩ := parseAlgorithm_ok t b r h
  rcases exists_last
    (fun a : Attribute =>
      a.Type_ = CRYPTOCFGA_REPORT_CIPHER ∨ a.Type_ = CRYPTOCFGA_REPORT_HASH)
    (messageAttributes t b) with hno | ⟨pre, a, post, hat, ha, hpost⟩
  · left
    exact parseAlgorithm.loop_no_report t _ _ _ _ _ hl he
      (fun x hx => not_or.mp (hno x hx))
  · right
    obtain ⟨hc, hh⟩ := parseAlgorithm.loop_last_report t a post
      (fun x hx => not_or.mp (hpost x hx)) pre _ _ _ _ _ hl he hat
    rcases ha with ha | ha
    · left
      obtain ⟨_, h2⟩ := parseCipher_ok_cipher t a.Data r.Type_ (hc ha)
      exact ⟨_, _, _, _, ByteOrder.Uint32_lt _ _, ByteOrder.Uint32_lt _ _,
        ByteOrder.Uint32_lt _ _, h2⟩
    · right
      obtain ⟨_, h2⟩ := parseHash_ok_hash t a.Data r.Type_ (hh ha)
      exact ⟨_, _, _, ByteOrder.Uint32_lt _ _, ByteOrder.Uint32_lt _ _, h2⟩

/-! ## Theorems: values on the wire -/

set_option maxRecDepth 200000 in
/-- C15, as stated, fails where `int` has 32 bits: the message with a zeroed
header and one priority attribute holding the wire value `2 ^ 31` decodes on
linux/386 to the priority `- 2 ^ 31`, which is negative and is not the wire
value. -/
theorem C15_wire_values_counterexample :
    messageAttributes Target.i386 (zeroHeader ++ [8, 0, 1, 0, 0, 0, 0, 0x80]) =
      [{ Length := 8, Type_ := CRYPTOCFGA_PRIORITY_VAL, Data := [0, 0, 0, 0x80] }] ∧
    Target.i386.NativeEndian.Uint32 [0, 0, 0, 0x80] = 2147483648 ∧
    parseAlgorithm Target.i386 (zeroHeader ++ [8, 0, 1, 0, 0, 0, 0, 0x80]) =
      .ok { emptyAlgorithm with Priority := -2147483648 } ∧
    ¬ (0 ≤ ({ emptyAlgorithm with Priority := -2147483648 } : Algorithm).Priority) := by
  refine ⟨?_, ?_, ?_, ?_⟩ <;> decide

/-- C15, amended: for every message on which `parseAlgorithm` succeeds, `Priority`
and every size field of the variant equal the unsigned 32-bit values carried
on the wire (the payload of the last priority attribute; the words after the
64-byte label of the last report attribute) whenever `int` holds the value
unchanged, that is for every wire value where `int` has 64 bits and for wire
values below `2 ^ 31` where it has 32. Where `int` has 64 bits, each of these
fields is so a non-negative integer in the range `0 .. 2 ^ 32 - 1`, also for
wire values of `2 ^ 31` and above. -/
theorem C15_wire_values (t : Target) (b : List Byte) (r : Algorithm)
    (h : parseAlgorithm t b = .ok r) :
    (∀ (pre : List Attribute) (a : Attribute) (post : List Attribute),
      messageAttributes t b = pre ++ a :: post → a.Type_ = CRYPTOCFGA_PRIORITY_VAL →
      (∀ x ∈ post, x.Type_ ≠ CRYPTOCFGA_PRIORITY_VAL) →
      (t.int64 = true ∨ t.NativeEndian.Uint32 a.Data < 2147483648) →
      r.Priority = (t.NativeEndian.Uint32 a.Data : Int)) ∧
    (∀ (pre : List Attribute) (a : Attribute) (post : List Attribute),
      messageAttributes t b = pre ++ a :: post → a.Type_ = CRYPTOCFGA_REPORT_CIPHER →
      (∀ x ∈ post,
        x.Type_ ≠ CRYPTOCFGA_REPORT_CIPHER ∧ x.Type_ ≠ CRYPTOCFGA_REPORT_HASH) →
      ∃ c, r.Type_ = some (.Cipher c) ∧
        ((t.int64 = true ∨ t.NativeEndian.Uint32 (a.Data.drop 64) < 2147483648) →
          c.BlockSize = (t.NativeEndian.Uint32 (a.Data.drop 64) : Int)) ∧
        ((t.int64 = true ∨ t.NativeEndian.Uint32 (a.Data.drop 68) < 2147483648) →
          c.MinKeySize = (t.NativeEndian.Uint32 (a.Data.drop 68) : Int)) ∧
        ((t.int64 = true ∨ t.NativeEndian.Uint32 (a.Data.drop 72) < 2147483648) →
          c.MaxKeySize = (t.NativeEndian.Uint32 (a.Data.drop 72) : Int))) ∧
    (∀ (pre : List Attribute) (a : Attribute) (post : List Attribute),
      messageAttributes t b = pre ++ a :: post → a.Type_ = CRYPTOCFGA_REPORT_HASH →
      (∀ x ∈ post,
        x.Type_ ≠ CRYPTOCFGA_REPORT_CIPHER ∧ x.Type_ ≠ CRYPTOCFGA_REPORT_HASH) →
      ∃ d, r.Type_ = some (.Hash d) ∧
        ((t.int64 = true ∨ t.NativeEndian.Uint32 (a.Data.drop 64) < 2147483648) →
          d.BlockSize = (t.NativeEndian.Uint32 (a.Data.drop 64) : Int)) ∧
        ((t.int64 = true ∨ t.NativeEndian.Uint32 (a.Data.drop 68) < 2147483648) →
          d.DigestSize = (t.NativeEndian.Uint32 (a.Data.drop 68) : Int))) ∧
    (t.int64 = true →
      (0 ≤ r.Priority ∧ r.Priority < 4294967296) ∧
      (∀ c, r.Type_ = some (.Cipher c) →
        (0 ≤ c.BlockSize ∧ c.BlockSize < 4294967296) ∧
        (0 ≤ c.MinKeySize ∧ c.MinKeySize < 4294967296) ∧
        (0 ≤ c.MaxKeySize ∧ c.MaxKeySize < 4294967296)) ∧
      (∀ d, r.Type_ = some (.Hash d) →
        (0 ≤ d.BlockSize ∧ d.BlockSize < 4294967296) ∧
        (0 ≤ d.DigestSize ∧ d.DigestSize < 4294967296))) := by
  obtain ⟨_, ad, hl, he⟩ := parseAlgorithm_ok t b r h
  refine ⟨?_, ?_, ?_, ?_⟩
  · intro pre a post hat ha hpost hv
    obtain ⟨_, hp⟩ :=
      parseAlgorithm.loop_last_priority t a post ha hpost pre _ _ _ _ _ hl he hat
    rw [hp]
    exact Target.int_eq t _ (ByteOrder.Uint32_lt _ _) hv
  · intro pre a post hat ha hpost
    obtain ⟨hc, _⟩ := parseAlgorithm.loop_last_report t a post hpost pre _ _ _ _ _ hl he hat
    obtain ⟨_, h2⟩ := parseCipher_ok_cipher t a.Data r.Type_ (hc ha)
    exact ⟨_, h2, fun hv => Target.int_eq t _ (ByteOrder.Uint32_lt _ _) hv,
      fun hv => Target.int_eq t _ (ByteOrder.Uint32_lt _ _) hv,
      fun hv => Target.int_eq t _ (ByteOrder.Uint32_lt _ _) hv⟩
  · intro pre a post hat ha hpost
    obtain ⟨_, hh⟩ := parseAlgorithm.loop_last_report t a post hpost pre _ _ _ _ _ hl he hat
    obtain ⟨_, h2⟩ := parseHash_ok_hash t a.Data r.Type_ (hh ha)
    exact ⟨_, h2, fun hv => Target.int_eq t _ (ByteOrder.Uint32_lt _ _) hv,
      fun hv => Target.int_eq t _ (ByteOrder.Uint32_lt _ _) hv⟩
  · intro h64
    refine ⟨?_, ?_, ?_⟩
    · obtain ⟨v, hv, hp⟩ := parseAlgorithm_priority t b r h
      rw [hp]
      exact Target.int_range t v hv h64
    · intro c hc
      rcases parseAlgorithm_type t b r h with h0 | ⟨v1, v2, v3, label, h1, h2, h3, hty⟩ |
        ⟨v1, v2, label, h1, h2, hty⟩
      · rw [h0] at hc
        cases hc
      · rw [hty] at hc
        simp only [Option.some.injEq, AlgorithmType.Cipher.injEq] at hc
        rw [← hc]
        exact ⟨Target.int_range t v1 h1 h64, Target.int_range t v2 h2 h64,
          Target.int_range t v3 h3 h64⟩
      · rw [hty] at hc
        simp at hc
    · intro d hd
      rcases parseAlgorithm_type t b r h with h0 | ⟨v1, v2, v3, label, h1, h2, h3, hty⟩ |
        ⟨v1, v2, label, h1, h2, hty⟩
      · rw [h0] at hd
        cases hd
      · rw [hty] at hd
        simp at hd
      · rw [hty] at hd
        simp only [Option.some.injEq, AlgorithmType.Hash.injEq] at hd
        rw [← hd]
        exact ⟨Target.int_range t v1 h1 h64, Target.int_range t v2 h2 h64⟩

set_option maxRecDepth 200000 in
theorem C15_wire_values_witness :
    parseAlgorithm Target.amd64 (zeroHeader ++ [8, 0, 1, 0, 0, 0, 0, 0x80]) =
      .ok { emptyAlgorithm with Priority := 2147483648 } ∧
    messageAttributes Target.amd64 (zeroHeader ++ [8, 0, 1, 0, 0, 0, 0, 0x80]) =
      [] ++ { Length := 8, Type_ := CRYPTOCFGA_PRIORITY_VAL, Data := [0, 0, 0, 0x80] } :: [] ∧
    ({ emptyAlgorithm with Priority := 2147483648 } : Algorithm).Priority =
      (Target.amd64.NativeEndian.Uint32 [0, 0, 0, 0x80] : Int) ∧
    (0 ≤ ({ emptyAlgorithm with Priority := 2147483648 } : Algorithm).Priority ∧
      ({ emptyAlgorithm with Priority := 2147483648 } : Algorithm).Priority < 4294967296) :=
  ⟨by decide, by decide,
    (C15_wire_values Target.amd64 (zeroHeader ++ [8, 0, 1, 0, 0, 0, 0, 0x80])
      { emptyAlgorithm with Priority := 2147483648 } (by decide)).1 []
      { Length := 8, Type_ := CRYPTOCFGA_PRIORITY_VAL, Data := [0, 0, 0, 0x80] } []
      (by decide) (by decide) (by decide) (Or.inl rfl),
    ((C15_wire_values Target.amd64 (zeroHeader ++ [8, 0, 1, 0, 0, 0, 0, 0x80])
      { emptyAlgorithm with Priority := 2147483648 } (by decide)).2.2.2 rfl).1⟩

/-! ## Theorems: the two variants of `str` -/

theorem Int8.ofUint8_toUint8 (x : Int8) : Int8.ofUint8 x.toUint8 = x := by
  obtain ⟨v, h1, h2⟩ := x
  apply Subtype.ext
  simp only [Int8.ofUint8, Int8.toUint8, Fin.ofNat]
  split <;> omega

theorem Int8.toUint8_val (x : Int8) : ((x.toUint8).val : Int) = x.val % 256 := by
  obtain ⟨v, h1, h2⟩ := x
  simp only [Int8.toUint8, Fin.ofNat]
  omega

theorem Int8.map_ofUint8_toUint8 (l : List Int8) :
    (l.map Int8.toUint8).map Int8.ofUint8 = l := by
  induction l with
  | nil => rfl
  | cons x xs ih =>
    simp only [List.map_cons, Int8.ofUint8_toUint8, List.cons.injEq, true_and]
    exact ih

/-- C16: the `str` of `str_int8.go` and the `str` of `str_uint8.go` return the
same text for arrays of the same byte content: for an array `a` of `int8` and
the array of the `uint8` with the same bit patterns, and for an array `u` of
`uint8` and the array of the `int8` with the same bit patterns. Reading a
signed element `x` as an unsigned byte gives `x` modulo 256, and the two
readings are inverse to each other. -/
theorem C16_str_variants_agree (a : List Int8) (u : List Byte) (x : Int8) :
    Int8Arch.str a = Uint8Arch.str (a.map Int8.toUint8) ∧
    Int8Arch.str (u.map Int8.ofUint8) = Uint8Arch.str u ∧
    (a.map Int8.toUint8).map Int8.ofUint8 = a ∧
    (u.map Int8.ofUint8).map Int8.toUint8 = u ∧
    ((x.toUint8).val : Int) = x.val % 256 :=
  ⟨rfl, Int8Arch.str_map_ofUint8 u, Int8.map_ofUint8_toUint8 a, Int8.map_toUint8_ofUint8 u,
    Int8.toUint8_val x⟩

/-! ## Theorems: reads stay inside the input -/

/-- The loop never faults. -/
theorem parseAlgorithm.loop_isSome (t : Target) :
    ∀ (n : Nat) (ad : AttributeDecoder) (alg : Algorithm),
      ∃ p, parseAlgorithm.loop t n ad alg = some p := by
  intro n
  induction n with
  | zero =>
    intro ad alg
    exact ⟨(ad, alg), rfl⟩
  | succ k ih =>
    intro ad alg
    rw [parseAlgorithm.loop]
    cases hnext : ad.Next with
    | mk ok ad1 =>
      cases ok with
      | false => exact ⟨(ad1, alg), rfl⟩
      | true =>
        obtain ⟨_, herr1⟩ := AttributeDecoder.Next_true ad ad1 hnext
        obtain ⟨e, alg1, hbody⟩ := parseAlgorithm.body_spec t ad1 alg herr1
        have hb : parseAlgorithm.body t ad1 alg = some ({ ad1 with err := e }, alg1) :=
          hbody ad1.b
        simp only [hb]
        exact ih _ _

/-- C17: for every byte buffer `b`, of every length and content, `parseAlgorithm`
returns a record or an error, never a fault of a read outside its input:
either the length check rejects `b`, or the two slices of `b` and the header
overlay are in bounds. For every payload `d`, `parseCipher` and `parseHash`
return likewise: either the length check rejects `d`, or `d` has the exact,
non-zero size of the report and the overlay is in bounds. -/
theorem C17_no_read_outside_input (t : Target) (b d : List Byte) :
    ((∃ r, parseAlgorithm t b = .ok r) ∨ ∃ e, parseAlgorithm t b = .error e) ∧
    (b.length < sizeofCryptoUserAlg ∨
      ∃ attrs hdr ualg, sliceFrom b sizeofCryptoUserAlg = some attrs ∧
        sliceTo b sizeofCryptoUserAlg = some hdr ∧ CryptoUserAlg.overlay t hdr = some ualg) ∧
    parseCipher t d ≠ .fault ∧ parseHash t d ≠ .fault ∧
    (d.length ≠ sizeofCryptoReportCipher ∨
      (0 < d.length ∧ ∃ c, CryptoReportCipher.overlay t d = some c)) ∧
    (d.length ≠ sizeofCryptoReportHash ∨
      (0 < d.length ∧ ∃ c, CryptoReportHash.overlay t d = some c)) := by
  refine ⟨?_, ?_, parseCipher_ne_fault t d, parseHash_ne_fault t d, ?_, ?_⟩
  · by_cases hlen : b.length < sizeofCryptoUserAlg
    · right
      refine ⟨.cryptoUserAlg sizeofCryptoUserAlg b.length, ?_⟩
      unfold parseAlgorithm
      rw [if_pos hlen]
    · have hh : (b.take sizeofCryptoUserAlg).length = sizeofCryptoUserAlg := by
        rw [List.length_take]
        omega
      have h1 := parseAlgorithm_append t (b.take sizeofCryptoUserAlg)
        (b.drop sizeofCryptoUserAlg) hh
      rw [List.take_append_drop] at h1
      obtain ⟨p, hp⟩ := parseAlgorithm.loop_isSome t
        ((b.drop sizeofCryptoUserAlg).length + 1)
        { ByteOrder := t.NativeEndian, a := { Length := 0, Type_ := 0, Data := [] },
          b := b.drop sizeofCryptoUserAlg, err := none }
        { Name := nlencString ((b.take sizeofCryptoUserAlg).take 64)
          Driver := nlencString (((b.take sizeofCryptoUserAlg).drop 64).take 64)
          Module := nlencString (((b.take sizeofCryptoUserAlg).drop 128).take 64)
          Priority := 0
          Type_ := none }
      rw [hp] at h1
      obtain ⟨ad, a⟩ := p
      simp only [parseAlgorithm.outcome, Option.map_some'] at h1
      cases he : ad.err with
      | none =>
        rw [he] at h1
        exact Or.inl ⟨a, h1⟩
      | some e =>
        rw [he] at h1
        exact Or.inr ⟨e, h1⟩
  · by_cases hlen : b.length < sizeofCryptoUserAlg
    · exact Or.inl hlen
    · right
      have hh : (b.take sizeofCryptoUserAlg).length = sizeofCryptoUserAlg := by
        rw [List.length_take]
        omega
      have hle : sizeofCryptoUserAlg ≤ b.length := by omega
      refine ⟨b.drop sizeofCryptoUserAlg, b.take sizeofCryptoUserAlg, ?_⟩
      simp only [sliceFrom, sliceTo, CryptoUserAlg.overlay, hh, lt_self_iff_false, if_false,
        hle, if_true]
      exact ⟨_, trivial, trivial, rfl⟩
  · by_cases hl : d.length = sizeofCryptoReportCipher
    · right
      refine ⟨by rw [hl]; decide, ?_⟩
      simp only [CryptoReportCipher.overlay, hl, lt_self_iff_false, if_false]
      exact ⟨_, rfl⟩
    · exact Or.inl hl
  · by_cases hl : d.length = sizeofCryptoReportHash
    · right
      refine ⟨by rw [hl]; decide, ?_⟩
      simp only [CryptoReportHash.overlay, hl, lt_self_iff_false, if_false]
      exact ⟨_, rfl⟩
    · exact Or.inl hl

/-! ## Theorems: the words of the header after the names -/

theorem header_fields_of_take (b : List Byte) :
    (b.take sizeofCryptoUserAlg).take 64 = (b.take 192).take 64 ∧
    ((b.take sizeofCryptoUserAlg).drop 64).take 64 = ((b.take 192).drop 64).take 64 ∧
    ((b.take sizeofCryptoUserAlg).drop 128).take 64 = ((b.take 192).drop 128).take 64 := by
  simp [sizeofCryptoUserAlg, List.drop_take, List.take_take]

/-- Two messages built of the same 192 bytes of names, of any 16 bytes each, and
of the same bytes after the header, agree at every offset outside the 16
bytes. -/
theorem getElem?_eq_of_words (X W1 W2 S : List Byte) (hX : X.length = 192)
    (hW1 : W1.length = 16) (hW2 : W2.length = 16) (i : Nat)
    (h : i < 192 ∨ sizeofCryptoUserAlg ≤ i) : (X ++ W1 ++ S)[i]? = (X ++ W2 ++ S)[i]? := by
  simp only [sizeofCryptoUserAlg] at h
  rcases h with h | h
  · rw [List.append_assoc, List.append_assoc, List.getElem?_append_left (by omega),
      List.getElem?_append_left (by omega)]
  · rw [List.getElem?_append_right (by simp only [List.length_append]; omega),
      List.getElem?_append_right (by simp only [List.length_append]; omega)]
    simp only [List.length_append, hX, hW1, hW2]

/-- C18: the header bytes after the three name fields (byte offsets 192 to
`sizeofCryptoUserAlg - 1`) do not influence decoding. For every two messages
of equal length that agree at every other offset, `parseAlgorithm` returns
the same on both: the same error, or the same record. -/
theorem C18_header_words_ignored (t : Target) (b1 b2 : List Byte)
    (hlen : b1.length = b2.length)
    (hsame : ∀ i : Nat, i < 192 ∨ sizeofCryptoUserAlg ≤ i → b1[i]? = b2[i]?) :
    parseAlgorithm t b1 = parseAlgorithm t b2 := by
  have h192 : b1.take 192 = b2.take 192 := by
    apply List.ext_getElem?
    intro n
    rw [List.getElem?_take, List.getElem?_take]
    by_cases hn : n < 192
    · rw [if_pos hn, if_pos hn]
      exact hsame n (Or.inl hn)
    · rw [if_neg hn, if_neg hn]
  have hdrop : b1.drop sizeofCryptoUserAlg = b2.drop sizeofCryptoUserAlg := by
    apply List.ext_getElem?
    intro n
    rw [List.getElem?_drop, List.getElem?_drop]
    exact hsame _ (Or.inr (by omega))
  by_cases hl : b1.length < sizeofCryptoUserAlg
  · have hl2 : b2.length < sizeofCryptoUserAlg := by omega
    unfold parseAlgorithm
    rw [if_pos hl, if_pos hl2, hlen]
  · have hh1 : (b1.take sizeofCryptoUserAlg).length = sizeofCryptoUserAlg := by
      rw [List.length_take]
      omega
    have hh2 : (b2.take sizeofCryptoUserAlg).length = sizeofCryptoUserAlg := by
      rw [List.length_take]
      omega
    have p1 := parseAlgorithm_append t (b1.take sizeofCryptoUserAlg)
      (b1.drop sizeofCryptoUserAlg) hh1
    have p2 := parseAlgorithm_append t (b2.take sizeofCryptoUserAlg)
      (b2.drop sizeofCryptoUserAlg) hh2
    obtain ⟨f1, f2, f3⟩ := header_fields_of_take b1
    obtain ⟨g1, g2, g3⟩ := header_fields_of_take b2
    rw [List.take_append_drop, f1, f2, f3, h192, hdrop] at p1
    rw [List.take_append_drop, g1, g2, g3] at p2
    rw [p1, p2]

set_option maxRecDepth 200000 in
theorem C18_header_words_ignored_witness :
    (List.replicate 192 (0 : Byte) ++ List.replicate 16 0 ++ [8, 0, 1, 0, 44, 1, 0, 0]).length =
      (List.replicate 192 (0 : Byte) ++ List.replicate 16 0xff ++
        [8, 0, 1, 0, 44, 1, 0, 0]).length ∧
    parseAlgorithm Target.amd64
        (List.replicate 192 0 ++ List.replicate 16 0 ++ [8, 0, 1, 0, 44, 1, 0, 0]) =
      .ok { emptyAlgorithm with Priority := 300 } ∧
    parseAlgorithm Target.amd64
        (List.replicate 192 0 ++ List.replicate 16 0 ++ [8, 0, 1, 0, 44, 1, 0, 0]) =
      parseAlgorithm Target.amd64
        (List.replicate 192 0 ++ List.replicate 16 0xff ++ [8, 0, 1, 0, 44, 1, 0, 0]) :=
  ⟨by decide, by decide,
    C18_header_words_ignored Target.amd64
      (List.replicate 192 0 ++ List.replicate 16 0 ++ [8, 0, 1, 0, 44, 1, 0, 0])
      (List.replicate 192 0 ++ List.replicate 16 0xff ++ [8, 0, 1, 0, 44, 1, 0, 0])
      (by decide)
      (fun i h => getElem?_eq_of_words (List.replicate 192 0) (List.replicate 16 0)
        (List.replicate 16 0xff) [8, 0, 1, 0, 44, 1, 0, 0] (by decide) (by decide) (by decide)
        i h)⟩

/-! ## Theorems: a priority attribute of the wrong length -/

/-- C19: a message with a complete header whose attribute stream holds, after any
well-formed attributes and before any further bytes, a priority attribute
whose payload is not exactly 4 bytes long: `parseAlgorithm` returns an error
and no record; it neither leaves `Priority` at 0 nor decodes a part of the
value. -/
theorem C19_priority_length_mismatch_fails (t : Target) (hdr : List Byte)
    (pre : List PaddedAttribute) (bad : PaddedAttribute) (rest : List Byte)
    (hh : hdr.length = sizeofCryptoUserAlg) (hpre : ∀ p ∈ pre, p.WellFormed)
    (hbad : bad.WellFormed) (hty : bad.attr.Type_ = CRYPTOCFGA_PRIORITY_VAL)
    (hlen : bad.attr.Data.length ≠ 4) :
    ∃ e, parseAlgorithm t
      (hdr ++ attributeStream t.NativeEndian pre ++ bad.bytes t.NativeEndian ++ rest) =
        .error e := by
  have hs := attributeStream_length_ge t.NativeEndian pre hpre
  have htl : ∀ (k : Nat) (a0 : Attribute) (alg : Algorithm),
      ∃ ad1 alg1 e, parseAlgorithm.loop t (k + 1)
        { ByteOrder := t.NativeEndian, a := a0, b := bad.bytes t.NativeEndian ++ rest,
          err := none } alg = some (ad1, alg1) ∧ ad1.err = some e := by
    intro k a0 alg
    rw [parseAlgorithm.loop_succ_bytes t t.NativeEndian k a0 bad hbad rest alg]
    refine ⟨
      { ByteOrder := t.NativeEndian, a := bad.attr, b := rest,
        err := some (.notUint32 CRYPTOCFGA_PRIORITY_VAL bad.attr.Data.length) },
      { alg with Priority := t.int 0 },
      .notUint32 CRYPTOCFGA_PRIORITY_VAL bad.attr.Data.length, ?_, rfl⟩
    rw [← parseAlgorithm.loop_err t k
      { ByteOrder := t.NativeEndian, a := bad.attr, b := rest,
        err := some (.notUint32 CRYPTOCFGA_PRIORITY_VAL bad.attr.Data.length) }
      { alg with Priority := t.int 0 } _ rfl]
    simp [parseAlgorithm.body, AttributeDecoder.Type_, AttributeDecoder.Uint32, hty, hlen]
  rw [List.append_assoc, List.append_assoc, parseAlgorithm_append t hdr _ hh]
  obtain ⟨ad1, alg1, e, hl, he⟩ := parseAlgorithm.loop_prefix_fails t t.NativeEndian
    (bad.bytes t.NativeEndian ++ rest) htl pre hpre
    ((attributeStream t.NativeEndian pre ++ (bad.bytes t.NativeEndian ++ rest)).length + 1)
    { Length := 0, Type_ := 0, Data := [] }
    { Name := nlencString (hdr.take 64)
      Driver := nlencString ((hdr.drop 64).take 64)
      Module := nlencString ((hdr.drop 128).take 64)
      Priority := 0
      Type_ := none }
    (by rw [List.length_append]; omega)
  rw [hl]
  exact ⟨e, by simp [parseAlgorithm.outcome, he]⟩

set_option maxRecDepth 200000 in
theorem C19_priority_length_mismatch_fails_witness :
    zeroHeader.length = sizeofCryptoUserAlg ∧
    (∀ p ∈ [sampleHash], p.WellFormed) ∧
    PaddedAttribute.WellFormed (sampleAttribute 1) ∧
    (sampleAttribute 1).attr.Type_ = CRYPTOCFGA_PRIORITY_VAL ∧
    (sampleAttribute 1).attr.Data.length ≠ 4 ∧
    ∃ e, parseAlgorithm Target.amd64
      (zeroHeader ++ attributeStream Target.amd64.NativeEndian [sampleHash] ++
        (sampleAttribute 1).bytes Target.amd64.NativeEndian ++ []) = .error e :=
  ⟨by decide, by decide, by decide, by decide, by decide,
    C19_priority_length_mismatch_fails Target.amd64 zeroHeader [sampleHash]
      (sampleAttribute 1) [] (by decide) (by decide) (by decide) (by decide) (by decide)⟩

end Cryptonl
